import Mathlib

/-!
Verification of the protocol-translation proxy (`server.py`).

This file gives a shallow embedding, in Lean 4, of the pure data
transformations of the proxy server: model-name resolution
(`ModelManager.validate_and_map_model`), JSON-schema sanitization
(`clean_gemini_schema`), request translation
(`convert_anthropic_to_litellm`), non-streaming response translation
(`convert_litellm_to_anthropic`), the quota/rate-limit error handler
(`handle_quota_rate_limit_error`), and the streaming recovery loop
(`handle_streaming_with_recovery` with its helpers `is_malformed_chunk`
and `try_parse_buffered_chunk`).

Python strings are modelled as Lean `String` (operated on through their
`List Char` data), Python dicts/JSON values as the inductive `Json`
below, and `json.loads` / `json.dumps` as a small recursive-descent
parser and printer.  Machine-level concerns (random UUIDs, logging,
network I/O, timeouts) are abstracted: UUID-based fresh identifiers are
modelled by fixed placeholder strings since no claim depends on their
value.
-/

namespace GeminiProxy

/-! ## Python-style string primitives -/

/-- Whitespace characters recognised by Python's `str.strip()`. -/
def pyIsSpace (c : Char) : Bool :=
  c = ' ' || c = '\t' || c = '\n' || c = '\r' || c = '\x0b' || c = '\x0c'

/-- Python `str.strip()` on a character list. -/
def pyStripL (l : List Char) : List Char :=
  ((l.dropWhile pyIsSpace).reverse.dropWhile pyIsSpace).reverse

/-- Python `str.strip()`. -/
def pyStrip (s : String) : String := String.mk (pyStripL s.data)

/-- Python `needle in haystack` substring test, on character lists. -/
def containsL (l pat : List Char) : Bool := decide (pat <:+: l)

/-- Python `needle in haystack` substring test on strings. -/
def pyContains (s pat : String) : Bool := containsL s.data pat.data

/-- Python `str.lower()` on a character list (ASCII view). -/
def pyLowerL (l : List Char) : List Char := l.map Char.toLower

/-- Python `str.lower()`. -/
def pyLower (s : String) : String := String.mk (pyLowerL s.data)

/-- Python `str.startswith(pre)`. -/
def pyStartsWith (s pre : String) : Bool := pre.data.isPrefixOf s.data

/-- Python `str.endswith(suf)`. -/
def pyEndsWith (s suf : String) : Bool := suf.data.isSuffixOf s.data

/-- Python slicing `s[n:]`. -/
def pyDrop (s : String) (n : Nat) : String := String.mk (s.data.drop n)

/-- Python `len(s)`. -/
def pyLen (s : String) : Nat := s.data.length

/-! ## JSON values

Python's parsed-JSON universe (`dict` / `list` / `str` / `int` /
`bool` / `None`), used both for tool-schema values and for streaming
chunk payloads.  Objects and arrays are separate list-like inductives so
that mutual structural recursion and induction stay straightforward. -/

mutual
inductive Json where
  | null
  | bool (b : Bool)
  | num (n : Int)
  | str (s : String)
  | arr (elems : JArr)
  | obj (fields : JObj)
  deriving DecidableEq
inductive JArr where
  | nil
  | cons (hd : Json) (tl : JArr)
  deriving DecidableEq
inductive JObj where
  | nil
  | cons (k : String) (v : Json) (tl : JObj)
  deriving DecidableEq
end

/-- Python `d.get(key)` on an object: first binding of `key`. -/
def jGet : JObj → String → Option Json
  | .nil, _ => none
  | .cons k v t, key => if k = key then some v else jGet t key

/-- Python `d.pop(key, None)`: the object without the `key` binding. -/
def jPop : JObj → String → JObj
  | .nil, _ => .nil
  | .cons k v t, key => if k = key then jPop t key else .cons k v (jPop t key)

/-- Python truthiness of a JSON value (`if x:`). -/
def jTruthy : Json → Bool
  | .null => false
  | .bool b => b
  | .num n => n ≠ 0
  | .str s => s ≠ ""
  | .arr .nil => false
  | .arr _ => true
  | .obj .nil => false
  | .obj _ => true

/-! ## `json.dumps` model -/

/-- Escape one character for a JSON string literal. -/
def escapeJsonChar (c : Char) : String :=
  if c = '"' then "\\\""
  else if c = '\\' then "\\\\"
  else if c = '\n' then "\\n"
  else if c = '\t' then "\\t"
  else if c = '\r' then "\\r"
  else String.mk [c]

/-- Escape a string for a JSON string literal. -/
def escapeJsonString (s : String) : String :=
  String.join (s.data.map escapeJsonChar)

mutual
/-- Model of `json.dumps` (Python default separators `", "` / `": "`). -/
def jsonDumps : Json → String
  | .null => "null"
  | .bool true => "true"
  | .bool false => "false"
  | .num n => toString n
  | .str s => "\"" ++ escapeJsonString s ++ "\""
  | .arr xs => "[" ++ jsonDumpsArr xs ++ "]"
  | .obj kvs => "\x7b" ++ jsonDumpsObj kvs ++ "\x7d"
/-- Render array elements, comma-separated. -/
def jsonDumpsArr : JArr → String
  | .nil => ""
  | .cons h .nil => jsonDumps h
  | .cons h t => jsonDumps h ++ ", " ++ jsonDumpsArr t
/-- Render object members, comma-separated. -/
def jsonDumpsObj : JObj → String
  | .nil => ""
  | .cons k v .nil => "\"" ++ escapeJsonString k ++ "\": " ++ jsonDumps v
  | .cons k v t =>
      "\"" ++ escapeJsonString k ++ "\": " ++ jsonDumps v ++ ", " ++ jsonDumpsObj t
end

/-! ## `json.loads` model

A recursive-descent parser with a fuel parameter (the fuel only bounds
nesting; scanning within strings and numbers is structural).  Numbers
are modelled as integers: a fractional or exponent part makes the parse
fail, a restriction that is irrelevant for the integer-valued payloads
this proxy handles. -/

/-- JSON inter-token whitespace. -/
def wsChar (c : Char) : Bool := c = ' ' || c = '\t' || c = '\n' || c = '\r'

/-- Skip inter-token whitespace. -/
def skipWs (cs : List Char) : List Char := cs.dropWhile wsChar

/-- Value of a hex digit. -/
def hexVal (c : Char) : Option Nat :=
  if '0' ≤ c ∧ c ≤ '9' then some (c.toNat - 48)
  else if 'a' ≤ c ∧ c ≤ 'f' then some (c.toNat - 87)
  else if 'A' ≤ c ∧ c ≤ 'F' then some (c.toNat - 55)
  else none

/-- Parse the body of a JSON string literal (after the opening quote),
returning the decoded characters and the input after the closing
quote. -/
def parseStrBody : List Char → Option (List Char × List Char)
  | [] => none
  | c :: rest =>
      if c = '"' then some ([], rest)
      else if c = '\\' then
        match rest with
        | 'u' :: a :: b :: c2 :: d :: rest2 =>
            (match hexVal a, hexVal b, hexVal c2, hexVal d with
             | some ha, some hb, some hc, some hd =>
                 (parseStrBody rest2).map fun (body, r) =>
                   (Char.ofNat (((ha * 16 + hb) * 16 + hc) * 16 + hd) :: body, r)
             | _, _, _, _ => none)
        | e :: rest2 =>
            let dec : Option Char :=
              if e = '"' then some '"'
              else if e = '\\' then some '\\'
              else if e = '/' then some '/'
              else if e = 'b' then some '\x08'
              else if e = 'f' then some '\x0c'
              else if e = 'n' then some '\n'
              else if e = 'r' then some '\r'
              else if e = 't' then some '\t'
              else none
            (match dec with
             | some c3 => (parseStrBody rest2).map fun (body, r) => (c3 :: body, r)
             | none => none)
        | [] => none
      else (parseStrBody rest).map fun (body, r) => (c :: body, r)

/-- Decimal digit test. -/
def isDigitC (c : Char) : Bool := '0' ≤ c && c ≤ '9'

/-- Numeric value of a digit run. -/
def digitsVal (ds : List Char) : Nat :=
  ds.foldl (fun a c => a * 10 + (c.toNat - 48)) 0

/-- Parse a JSON number (integers only, see the section comment). -/
def parseNum (cs : List Char) : Option (Int × List Char) :=
  let core (l : List Char) (neg : Bool) : Option (Int × List Char) :=
    let ds := l.takeWhile isDigitC
    let rest := l.drop ds.length
    if ds.isEmpty then none
    else
      match rest with
      | '.' :: _ => none
      | 'e' :: _ => none
      | 'E' :: _ => none
      | _ => some (if neg then -(digitsVal ds : Int) else (digitsVal ds : Int), rest)
  match cs with
  | '-' :: rest => core rest true
  | _ => core cs false

mutual
/-- Parse one JSON value.  Fuel decreases at each nesting step. -/
def parseVal : Nat → List Char → Option (Json × List Char)
  | 0, _ => none
  | fuel + 1, cs =>
      match skipWs cs with
      | [] => none
      | '"' :: rest =>
          (parseStrBody rest).map fun (body, r) => (Json.str (String.mk body), r)
      | '{' :: rest =>
          (match skipWs rest with
           | '}' :: r2 => some (Json.obj .nil, r2)
           | _ => (parseMembers fuel (skipWs rest)).map fun (kvs, r) => (Json.obj kvs, r))
      | '[' :: rest =>
          (match skipWs rest with
           | ']' :: r2 => some (Json.arr .nil, r2)
           | _ => (parseElems fuel (skipWs rest)).map fun (xs, r) => (Json.arr xs, r))
      | c :: rest =>
          if ['t', 'r', 'u', 'e'].isPrefixOf (c :: rest) then
            some (Json.bool true, (c :: rest).drop 4)
          else if ['f', 'a', 'l', 's', 'e'].isPrefixOf (c :: rest) then
            some (Json.bool false, (c :: rest).drop 5)
          else if ['n', 'u', 'l', 'l'].isPrefixOf (c :: rest) then
            some (Json.null, (c :: rest).drop 4)
          else
            (parseNum (c :: rest)).map fun (n, r) => (Json.num n, r)
/-- Parse the members of an object (input begins at a key). -/
def parseMembers : Nat → List Char → Option (JObj × List Char)
  | 0, _ => none
  | fuel + 1, cs =>
      match skipWs cs with
      | '"' :: rest =>
          match parseStrBody rest with
          | none => none
          | some (key, r1) =>
              match skipWs r1 with
              | ':' :: r2 =>
                  match parseVal fuel r2 with
                  | none => none
                  | some (v, r3) =>
                      match skipWs r3 with
                      | ',' :: r4 =>
                          (parseMembers fuel r4).map fun (tl, r5) =>
                            (JObj.cons (String.mk key) v tl, r5)
                      | '}' :: r4 => some (JObj.cons (String.mk key) v .nil, r4)
                      | _ => none
              | _ => none
      | _ => none
/-- Parse the elements of an array (input begins at a value). -/
def parseElems : Nat → List Char → Option (JArr × List Char)
  | 0, _ => none
  | fuel + 1, cs =>
      match parseVal fuel cs with
      | none => none
      | some (v, r1) =>
          match skipWs r1 with
          | ',' :: r2 => (parseElems fuel r2).map fun (tl, r3) => (JArr.cons v tl, r3)
          | ']' :: r2 => some (JArr.cons v .nil, r2)
          | _ => none
end

/-- Model of `json.loads` on a character list: `none` is a
`JSONDecodeError`. -/
def jsonLoadsL (cs : List Char) : Option Json :=
  match parseVal (cs.length + 1) cs with
  | some (v, rest) => if skipWs rest = [] then some v else none
  | none => none

/-- Model of `json.loads` on a string. -/
def jsonLoads (s : String) : Option Json := jsonLoadsL s.data

end GeminiProxy

namespace GeminiProxy

/-! ## Model management (`ModelManager`, server.py 135-191)

The configured big/small model identifiers (`Config.big_model`,
`Config.small_model`, read from the environment at startup) are passed
as explicit parameters `big` and `small`. -/

/-- The fixed seed list `ModelManager.base_gemini_models`. -/
def baseGeminiModels : List String :=
  ["gemini-1.5-pro-latest",
   "gemini-1.5-pro-preview-0514",
   "gemini-1.5-flash-latest",
   "gemini-1.5-flash-preview-0514",
   "gemini-pro",
   "gemini-2.5-pro-preview-05-06",
   "gemini-2.5-flash-preview-04-17",
   "gemini-2.0-flash-exp",
   "gemini-exp-1206"]

/-- The known backend-model set: the seed list plus each configured
model that starts with `"gemini"` (`ModelManager._add_env_models`).
Modelled as a duplicate-free list. -/
def geminiModels (big small : String) : List String :=
  let s1 := if pyStartsWith big "gemini" && !(baseGeminiModels.contains big)
            then baseGeminiModels ++ [big] else baseGeminiModels
  if pyStartsWith small "gemini" && !(s1.contains small)
  then s1 ++ [small] else s1

/-- `ModelManager._clean_model_name`: strip one known provider prefix. -/
def cleanModelName (m : String) : String :=
  if pyStartsWith m "gemini/" then pyDrop m 7
  else if pyStartsWith m "anthropic/" then pyDrop m 10
  else if pyStartsWith m "openai/" then pyDrop m 7
  else m

/-- `ModelManager._map_model_alias`: case-insensitive alias substrings. -/
def mapModelAlias (big small clean : String) : String :=
  let ml := pyLower clean
  if pyContains ml "haiku" then small
  else if pyContains ml "sonnet" || pyContains ml "opus" then big
  else clean

/-- `ModelManager.validate_and_map_model`: returns the effective model
string and the `was_mapped` flag. -/
def validateAndMapModel (big small m : String) : String × Bool :=
  let clean := cleanModelName m
  let mapped := mapModelAlias big small clean
  if mapped ≠ clean then ("gemini/" ++ mapped, true)
  else if (geminiModels big small).contains clean then ("gemini/" ++ clean, true)
  else if !(pyStartsWith m "gemini/") then ("gemini/" ++ m, false)
  else (m, false)

/-! ## Quota / rate-limit error handler (server.py 302-367)

`handle_quota_rate_limit_error` first derives `quota_details =
parse_gemini_error_details(str(error))` and `retry_delay =
extract_retry_delay(str(error))`; the classification and response
construction below take those parsed ingredients — the quota metric,
the optional backend message, and the retry delay — as parameters,
together with the raw error text. -/

/-- An `HTTPException`: status code and detail message. -/
structure HttpError where
  status : Nat
  detail : String
  deriving DecidableEq, Repr

/-- The exhaustion indicator list of `handle_quota_rate_limit_error`. -/
def exhaustionIndicators : List String :=
  ["requests_per_day",
   "generate_content_free_tier_requests",
   "tokens_per_day",
   "characters_per_day"]

/-- The rate-limit indicator list of `handle_quota_rate_limit_error`. -/
def rateLimitIndicators : List String :=
  ["requests_per_minute",
   "tokens_per_minute",
   "characters_per_minute"]

/-- The classification part of `handle_quota_rate_limit_error`: decide
`is_quota_exhausted` from the parsed quota metric and the raw error
text (a `for…else` fallback in the source). -/
def isQuotaExhausted (quotaMetric : String) (errorStr : String) : Bool :=
  let qm := pyLower quotaMetric
  if exhaustionIndicators.any (fun ind => pyContains qm ind) then true
  else if rateLimitIndicators.any (fun ind => pyContains qm ind) then false
  else pyContains (pyLower errorStr) "quota" || pyContains (pyLower errorStr) "free_tier"

/-- `handle_quota_rate_limit_error`, given the parsed error details
(`quota_metric`, optional `message`) and extracted retry delay. -/
def handleQuotaRateLimitError (quotaMetric : String) (message : Option String)
    (retryDelay : Nat) (errorStr : String) : HttpError :=
  if isQuotaExhausted quotaMetric errorStr then
    { status := 400
      detail := message.getD "Quota exhausted. Please check your quota limits." }
  else
    { status := 500
      detail := message.getD "Rate limited. Too many requests." ++
        " (Google suggests waiting " ++ toString retryDelay ++
        "s, but Claude Code will retry faster)" }

end GeminiProxy

namespace GeminiProxy

/-- Helper: a middle segment is a substring of the surrounding
concatenation (used to show a detail message includes the retry
delay). -/
theorem pyContains_append_middle (a b c : String) :
    pyContains (a ++ b ++ c) b = true := by
  have h : b.data <:+: (a ++ b ++ c).data := by
    refine ⟨a.data, c.data, ?_⟩
    simp [String.data_append]
  simp [pyContains, containsL, h]

/-- C1: if the parsed quota metric contains (case-insensitively) an
exhaustion indicator, the handler returns HTTP 400 with the backend's
own message; if instead it contains a rate-limit indicator, it returns
HTTP 500 whose detail includes the extracted retry delay; and when
neither matches, the failure is classified exhausted (400) exactly when
the raw error text contains `"quota"` or `"free_tier"`
(case-insensitively), else transient (500). -/
theorem quota_rate_limit_classification
    (quotaMetric : String) (message : Option String) (retryDelay : Nat)
    (errorStr : String) :
    (exhaustionIndicators.any (fun ind => pyContains (pyLower quotaMetric) ind) = true →
      handleQuotaRateLimitError quotaMetric message retryDelay errorStr =
        { status := 400
          detail := message.getD "Quota exhausted. Please check your quota limits." }) ∧
    (exhaustionIndicators.any (fun ind => pyContains (pyLower quotaMetric) ind) = false →
      rateLimitIndicators.any (fun ind => pyContains (pyLower quotaMetric) ind) = true →
      (handleQuotaRateLimitError quotaMetric message retryDelay errorStr).status = 500 ∧
      pyContains (handleQuotaRateLimitError quotaMetric message retryDelay errorStr).detail
        (toString retryDelay ++ "s") = true) ∧
    (exhaustionIndicators.any (fun ind => pyContains (pyLower quotaMetric) ind) = false →
      rateLimitIndicators.any (fun ind => pyContains (pyLower quotaMetric) ind) = false →
      ((handleQuotaRateLimitError quotaMetric message retryDelay errorStr).status = 400 ↔
        (pyContains (pyLower errorStr) "quota" = true ∨
         pyContains (pyLower errorStr) "free_tier" = true)) ∧
      ((handleQuotaRateLimitError quotaMetric message retryDelay errorStr).status = 500 ↔
        ¬ (pyContains (pyLower errorStr) "quota" = true ∨
           pyContains (pyLower errorStr) "free_tier" = true))) := by
  have hdetail :
      message.getD "Rate limited. Too many requests." ++
        " (Google suggests waiting " ++ toString retryDelay ++
        "s, but Claude Code will retry faster)" =
      (message.getD "Rate limited. Too many requests." ++ " (Google suggests waiting ")
        ++ (toString retryDelay ++ "s") ++ ", but Claude Code will retry faster)" := by
    simp [String.ext_iff, String.data_append]
  refine ⟨fun h1 => ?_, fun h1 h2 => ?_, fun h1 h2 => ?_⟩
  · simp [handleQuotaRateLimitError, isQuotaExhausted, h1]
  · constructor
    · simp [handleQuotaRateLimitError, isQuotaExhausted, h1, h2]
    · simp only [handleQuotaRateLimitError, isQuotaExhausted, h1, h2]
      simp only [Bool.false_eq_true, if_false, hdetail]
      exact pyContains_append_middle _ _ _
  · by_cases hq : pyContains (pyLower errorStr) "quota" = true ∨
        pyContains (pyLower errorStr) "free_tier" = true
    · have hb : (pyContains (pyLower errorStr) "quota" ||
          pyContains (pyLower errorStr) "free_tier") = true := by
        rcases hq with h | h <;> simp [h]
      simp [handleQuotaRateLimitError, isQuotaExhausted, h1, h2, hb, hq]
    · have hb : (pyContains (pyLower errorStr) "quota" ||
          pyContains (pyLower errorStr) "free_tier") = false := by
        push_neg at hq
        simp [hq.1, hq.2]
      simp [handleQuotaRateLimitError, isQuotaExhausted, h1, h2, hb, hq]

/-- Witness for `quota_rate_limit_classification` at concrete inputs:
the free-tier daily metric classifies as 400 with the backend message,
and the per-minute metric classifies as 500 including the delay. -/
theorem quota_rate_limit_classification_witness :
    handleQuotaRateLimitError "generate_content_free_tier_requests"
      (some "You exceeded your current quota") 25 "RESOURCE_EXHAUSTED" =
      { status := 400, detail := "You exceeded your current quota" } ∧
    (handleQuotaRateLimitError "generate_content_requests_per_minute"
      (some "Rate limit hit") 25 "429").status = 500 ∧
    pyContains (handleQuotaRateLimitError "generate_content_requests_per_minute"
      (some "Rate limit hit") 25 "429").detail (toString 25 ++ "s") = true := by
  refine ⟨?_, ?_, ?_⟩
  · exact (quota_rate_limit_classification "generate_content_free_tier_requests"
      (some "You exceeded your current quota") 25 "RESOURCE_EXHAUSTED").1 (by decide)
  · exact ((quota_rate_limit_classification "generate_content_requests_per_minute"
      (some "Rate limit hit") 25 "429").2.1 (by decide) (by decide)).1
  · exact ((quota_rate_limit_classification "generate_content_requests_per_minute"
      (some "Rate limit hit") 25 "429").2.1 (by decide) (by decide)).2

end GeminiProxy

namespace GeminiProxy

/-- C6: model resolution strips a provider prefix, maps `haiku` to the
configured small model and `sonnet`/`opus` to the configured big model
(case-insensitively); when the resolved name differs from the clean
name or the clean name is a known backend model, the result is the
resolved name with the `gemini/` prefix and `was_mapped = true`;
otherwise an input not already starting with `gemini/` gets the prefix
prepended with `was_mapped = false`, and an input already starting with
`gemini/` is returned unchanged with `was_mapped = false`. -/
theorem validate_and_map_model_cases (big small m : String) :
    (pyContains (pyLower (cleanModelName m)) "haiku" = true →
      mapModelAlias big small (cleanModelName m) = small) ∧
    (pyContains (pyLower (cleanModelName m)) "haiku" = false →
      (pyContains (pyLower (cleanModelName m)) "sonnet" ||
       pyContains (pyLower (cleanModelName m)) "opus") = true →
      mapModelAlias big small (cleanModelName m) = big) ∧
    ((mapModelAlias big small (cleanModelName m) ≠ cleanModelName m ∨
      (geminiModels big small).contains (cleanModelName m) = true) →
      validateAndMapModel big small m =
        ("gemini/" ++ mapModelAlias big small (cleanModelName m), true)) ∧
    (mapModelAlias big small (cleanModelName m) = cleanModelName m →
      (geminiModels big small).contains (cleanModelName m) = false →
      pyStartsWith m "gemini/" = false →
      validateAndMapModel big small m = ("gemini/" ++ m, false)) ∧
    (mapModelAlias big small (cleanModelName m) = cleanModelName m →
      (geminiModels big small).contains (cleanModelName m) = false →
      pyStartsWith m "gemini/" = true →
      validateAndMapModel big small m = (m, false)) := by
  refine ⟨fun h => ?_, fun h1 h2 => ?_, fun h => ?_, fun h1 h2 h3 => ?_, fun h1 h2 h3 => ?_⟩
  · simp [mapModelAlias, h]
  · simp [mapModelAlias, h1, h2]
  · rcases h with h | h
    · simp [validateAndMapModel, h]
    · by_cases hd : mapModelAlias big small (cleanModelName m) = cleanModelName m
      · replace h : cleanModelName m ∈ geminiModels big small := by simpa using h
        simp [validateAndMapModel, hd, h]
      · simp [validateAndMapModel, hd]
  · replace h2 : cleanModelName m ∉ geminiModels big small := by simpa using h2
    simp [validateAndMapModel, h1, h2, h3]
  · replace h2 : cleanModelName m ∉ geminiModels big small := by simpa using h2
    simp [validateAndMapModel, h1, h2, h3]

/-- Witness for `validate_and_map_model_cases` at concrete inputs: a
haiku alias resolves to the small model with the prefix and
`was_mapped = true`; an unknown name without the prefix gets the prefix
with `was_mapped = false`; a `gemini/`-prefixed unknown name passes
through unchanged. -/
theorem validate_and_map_model_cases_witness :
    mapModelAlias "gemini-2.0-flash-exp" "gemini-1.5-flash-latest"
      (cleanModelName "claude-3-5-haiku-20241022") = "gemini-1.5-flash-latest" ∧
    validateAndMapModel "gemini-2.0-flash-exp" "gemini-1.5-flash-latest"
      "claude-3-5-haiku-20241022" = ("gemini/gemini-1.5-flash-latest", true) ∧
    validateAndMapModel "gemini-2.0-flash-exp" "gemini-1.5-flash-latest"
      "my-custom-model" = ("gemini/my-custom-model", false) ∧
    validateAndMapModel "gemini-2.0-flash-exp" "gemini-1.5-flash-latest"
      "gemini/unknown-model" = ("gemini/unknown-model", false) := by
  refine ⟨?_, ?_, ?_, ?_⟩
  · exact (validate_and_map_model_cases "gemini-2.0-flash-exp" "gemini-1.5-flash-latest"
      "claude-3-5-haiku-20241022").1 (by decide)
  · exact (validate_and_map_model_cases "gemini-2.0-flash-exp" "gemini-1.5-flash-latest"
      "claude-3-5-haiku-20241022").2.2.1 (Or.inl (by decide))
  · exact (validate_and_map_model_cases "gemini-2.0-flash-exp" "gemini-1.5-flash-latest"
      "my-custom-model").2.2.2.1 (by decide) (by decide) (by decide)
  · exact (validate_and_map_model_cases "gemini-2.0-flash-exp" "gemini-1.5-flash-latest"
      "gemini/unknown-model").2.2.2.2 (by decide) (by decide) (by decide)

end GeminiProxy

namespace GeminiProxy

/-- Rebuilding a string from its character data is the identity. -/
theorem stringMk_data (s : String) : String.mk s.data = s := by cases s; rfl

/-- A concatenation starts with its left part. -/
theorem pyStartsWith_prefix_append (p s : String) : pyStartsWith (p ++ s) p = true := by
  rw [pyStartsWith, String.data_append, List.isPrefixOf_iff_prefix]
  exact List.prefix_append _ _

/-- A string that starts with `p` splits as `p` followed by the rest. -/
theorem data_eq_of_pyStartsWith {m p : String} (h : pyStartsWith m p = true) :
    m.data = p.data ++ m.data.drop p.data.length := by
  obtain ⟨t, ht⟩ := List.isPrefixOf_iff_prefix.1 h
  rw [← ht, List.drop_left]

/-- Stripping the `gemini/` prefix from a prefixed name recovers the
name. -/
theorem cleanModelName_gemini_append (s : String) :
    cleanModelName ("gemini/" ++ s) = s := by
  have h7 : ("gemini/" : String).data.length = 7 := rfl
  rw [cleanModelName, if_pos (pyStartsWith_prefix_append "gemini/" s), pyDrop,
    String.data_append, ← h7, List.drop_left, stringMk_data]

/-- Decomposition of an infix of a concatenation: it lies in the left
part, in the right part, or spans the boundary. -/
theorem infix_append_cases {kw a b : List Char} (h : kw <:+: a ++ b) :
    kw <:+: a ∨ kw <:+: b ∨
      ∃ s t, s ++ t = kw ∧ s ≠ [] ∧ t ≠ [] ∧ s <:+ a ∧ t <+: b := by
  obtain ⟨u, v, huv⟩ := h
  have huv' : u ++ (kw ++ v) = a ++ b := by simpa [List.append_assoc] using huv
  rcases List.append_eq_append_iff.1 huv' with ⟨w, haw, hwb⟩ | ⟨z, huz, hbz⟩
  · rcases List.append_eq_append_iff.1 hwb with ⟨x, hwx, hvx⟩ | ⟨y, hky, hby⟩
    · exact Or.inl ⟨u, x, by rw [haw, hwx, List.append_assoc]⟩
    · rcases eq_or_ne w [] with rfl | hw
      · refine Or.inr (Or.inl ⟨[], v, ?_⟩)
        simp at hky
        rw [hby, hky]
        simp
      · rcases eq_or_ne y [] with rfl | hy
        · refine Or.inl ⟨u, [], ?_⟩
          simp at hky ⊢
          rw [haw, hky]
        · exact Or.inr (Or.inr ⟨w, y, hky.symm, hw, hy, ⟨u, haw.symm⟩, ⟨v, hby.symm⟩⟩)
  · exact Or.inr (Or.inl ⟨z, v, by rw [hbz, List.append_assoc]⟩)

/-- If a keyword containing no `'/'` is not an infix of a left part
ending in `'/'` nor of the right part, it is not an infix of the
concatenation. -/
theorem not_infix_append_of_slash {kw p r : List Char} (hkp : ¬ kw <:+: p)
    (hslash : '/' ∉ kw) (hlast : p.getLast? = some '/') (hkr : ¬ kw <:+: r) :
    ¬ kw <:+: p ++ r := by
  intro h
  rcases infix_append_cases h with h | h | ⟨s, t, hst, hs, _ht, hsuf, _hpre⟩
  · exact hkp h
  · exact hkr h
  · obtain ⟨u, hu⟩ := hsuf
    have hslast : s.getLast? = some '/' := by
      rw [← hlast, ← hu, List.getLast?_append_of_ne_nil u hs]
    have hmem : '/' ∈ s := by
      have hne : s ≠ [] := hs
      have h2 := List.getLast?_eq_getLast s hne
      rw [h2] at hslast
      exact (Option.some_inj.mp hslast) ▸ List.getLast_mem hne
    exact hslash (hst ▸ List.mem_append_left t hmem)

/-- The alias mapper returns the input, the small model, or the big
model. -/
theorem mapModelAlias_cases (big small c : String) :
    mapModelAlias big small c = c ∨ mapModelAlias big small c = small ∨
      mapModelAlias big small c = big := by
  by_cases h1 : pyContains (pyLower c) "haiku" = true
  · exact Or.inr (Or.inl (by simp [mapModelAlias, h1]))
  · by_cases h2 : (pyContains (pyLower c) "sonnet" || pyContains (pyLower c) "opus") = true
    · exact Or.inr (Or.inr (by simp [mapModelAlias, h1, h2]))
    · exact Or.inl (by simp [mapModelAlias, h1, h2])

/-- The alias mapper fixes any keyword-free name. -/
theorem mapModelAlias_eq_self (big small c : String)
    (h1 : pyContains (pyLower c) "haiku" = false)
    (h2 : pyContains (pyLower c) "sonnet" = false)
    (h3 : pyContains (pyLower c) "opus" = false) :
    mapModelAlias big small c = c := by
  simp [mapModelAlias, h1, h2, h3]

/-- Under keyword-free configured models, a fixed point of the alias
mapper is itself keyword-free. -/
theorem keywordfree_of_alias_fixed (big small c : String)
    (hb2 : pyContains (pyLower big) "sonnet" = false)
    (hb3 : pyContains (pyLower big) "opus" = false)
    (hs1 : pyContains (pyLower small) "haiku" = false)
    (h : mapModelAlias big small c = c) :
    pyContains (pyLower c) "haiku" = false ∧
    pyContains (pyLower c) "sonnet" = false ∧
    pyContains (pyLower c) "opus" = false := by
  by_cases hh : pyContains (pyLower c) "haiku" = true
  · have hsm : mapModelAlias big small c = small := by simp [mapModelAlias, hh]
    rw [h] at hsm
    rw [hsm] at hh
    exact absurd hh (by simp [hs1])
  · have hh' : pyContains (pyLower c) "haiku" = false := by simpa using hh
    by_cases hson : pyContains (pyLower c) "sonnet" = true
    · have hbg : mapModelAlias big small c = big := by simp [mapModelAlias, hh', hson]
      rw [h] at hbg
      rw [hbg] at hson
      exact absurd hson (by simp [hb2])
    · by_cases hop : pyContains (pyLower c) "opus" = true
      · have hbg : mapModelAlias big small c = big := by simp [mapModelAlias, hh', hop]
        rw [h] at hbg
        rw [hbg] at hop
        exact absurd hop (by simp [hb3])
      · exact ⟨hh', by simpa using hson, by simpa using hop⟩

/-- Every member of the known backend-model set starts with
`"gemini"`. -/
theorem startsWith_of_mem_geminiModels {big small x : String}
    (h : x ∈ geminiModels big small) : pyStartsWith x "gemini" = true := by
  have hbase : ∀ y ∈ baseGeminiModels, pyStartsWith y "gemini" = true := by decide
  unfold geminiModels at h
  by_cases hc1 : (pyStartsWith big "gemini" && !(baseGeminiModels.contains big)) = true
  · rw [if_pos hc1] at h
    have hb := hc1
    simp only [Bool.and_eq_true] at hb
    by_cases hc2 : (pyStartsWith small "gemini" &&
        !((baseGeminiModels ++ [big]).contains small)) = true
    · rw [if_pos hc2] at h
      have hs := hc2
      simp only [Bool.and_eq_true] at hs
      rcases List.mem_append.1 h with h | h
      · rcases List.mem_append.1 h with h | h
        · exact hbase x h
        · rw [List.mem_singleton.1 h]
          exact hb.1
      · rw [List.mem_singleton.1 h]
        exact hs.1
    · rw [if_neg hc2] at h
      rcases List.mem_append.1 h with h | h
      · exact hbase x h
      · rw [List.mem_singleton.1 h]
        exact hb.1
  · rw [if_neg hc1] at h
    by_cases hc2 : (pyStartsWith small "gemini" && !(baseGeminiModels.contains small)) = true
    · rw [if_pos hc2] at h
      have hs := hc2
      simp only [Bool.and_eq_true] at hs
      rcases List.mem_append.1 h with h | h
      · exact hbase x h
      · rw [List.mem_singleton.1 h]
        exact hs.1
    · rw [if_neg hc2] at h
      exact hbase x h

end GeminiProxy

namespace GeminiProxy

/-- Keyword-freeness transfers across a stripped provider prefix ending
in `'/'`. -/
theorem pyContains_false_of_stripped (p : String) {m kw : String} {n : Nat}
    (hn : p.data.length = n)
    (hpre : pyStartsWith m p = true)
    (hkp : containsL (pyLowerL p.data) kw.data = false)
    (hslash : '/' ∉ kw.data)
    (hlast : (pyLowerL p.data).getLast? = some '/')
    (hkr : pyContains (pyLower (pyDrop m n)) kw = false) :
    pyContains (pyLower m) kw = false := by
  subst hn
  have hsplit := data_eq_of_pyStartsWith hpre
  show containsL (pyLowerL m.data) kw.data = false
  rw [hsplit, pyLowerL, List.map_append]
  have h1 : ¬ (kw.data <:+: pyLowerL p.data) := by
    simpa [containsL] using hkp
  have h2 : ¬ (kw.data <:+: pyLowerL (m.data.drop p.data.length)) := by
    simpa [pyContains, pyLower, containsL] using hkr
  have h3 := not_infix_append_of_slash h1 hslash hlast h2
  simpa [containsL, pyLowerL] using h3

/-- A name carrying a non-`gemini` provider prefix is not in the known
backend-model set. -/
theorem not_mem_geminiModels_of_prefix {big small m p : String}
    (hpre : pyStartsWith m p = true)
    (hnp : ("gemini" : String).data.isPrefixOf p.data = false)
    (hlen : 6 ≤ p.data.length) :
    m ∉ geminiModels big small := by
  intro hmem
  have hg := startsWith_of_mem_geminiModels hmem
  have h1 : ("gemini" : String).data <+: m.data := List.isPrefixOf_iff_prefix.1 hg
  have h2 : p.data <+: m.data := List.isPrefixOf_iff_prefix.1 hpre
  have h6 : ("gemini" : String).data.length = 6 := rfl
  have h3 : ("gemini" : String).data <+: p.data :=
    List.prefix_of_prefix_length_le h1 h2 (by rw [h6]; exact hlen)
  exact absurd (List.isPrefixOf_iff_prefix.2 h3) (by simp [hnp])

/-- C7: model resolution is idempotent on the resolved name — for every
input string, resolving the model name returned by the resolver yields
that name unchanged — provided the configured big/small model names
contain none of the alias keywords `haiku` / `sonnet` / `opus`
(case-insensitively), as is true of the shipped defaults. -/
theorem validate_and_map_model_idempotent (big small m : String)
    (hb1 : pyContains (pyLower big) "haiku" = false)
    (hb2 : pyContains (pyLower big) "sonnet" = false)
    (hb3 : pyContains (pyLower big) "opus" = false)
    (hs1 : pyContains (pyLower small) "haiku" = false)
    (hs2 : pyContains (pyLower small) "sonnet" = false)
    (hs3 : pyContains (pyLower small) "opus" = false) :
    (validateAndMapModel big small (validateAndMapModel big small m).1).1 =
      (validateAndMapModel big small m).1 := by
  by_cases h1 : mapModelAlias big small (cleanModelName m) = cleanModelName m
  · by_cases h2 : cleanModelName m ∈ geminiModels big small
    · -- clean name in the known set: result is prefixed clean name
      have hVm : validateAndMapModel big small m =
          ("gemini/" ++ cleanModelName m, true) := by
        simp [validateAndMapModel, h1, h2]
      rw [hVm]
      have hclean2 := cleanModelName_gemini_append (cleanModelName m)
      simp [validateAndMapModel, hclean2, h1, h2]
    · by_cases h3 : pyStartsWith m "gemini/" = true
      · -- already prefixed, unknown: returned unchanged
        have hVm : validateAndMapModel big small m = (m, false) := by
          simp [validateAndMapModel, h1, h2, h3]
        rw [hVm]
        show (validateAndMapModel big small m).1 = m
        rw [hVm]
      · -- unknown, unprefixed: prefix is added
        have hVm : validateAndMapModel big small m = ("gemini/" ++ m, false) := by
          simp [validateAndMapModel, h1, h2, h3]
        rw [hVm]
        show (validateAndMapModel big small ("gemini/" ++ m)).1 = "gemini/" ++ m
        have hclean2 : cleanModelName ("gemini/" ++ m) = m :=
          cleanModelName_gemini_append m
        have haliasm : mapModelAlias big small m = m := by
          by_cases h4 : pyStartsWith m "anthropic/" = true
          · have hcm : cleanModelName m = pyDrop m 10 := by
              simp [cleanModelName, h3, h4]
            have hkf := keywordfree_of_alias_fixed big small (cleanModelName m)
              hb2 hb3 hs1 h1
            rw [hcm] at hkf
            exact mapModelAlias_eq_self big small m
              (pyContains_false_of_stripped "anthropic/" rfl h4 (by decide)
                (by decide) (by decide) hkf.1)
              (pyContains_false_of_stripped "anthropic/" rfl h4 (by decide)
                (by decide) (by decide) hkf.2.1)
              (pyContains_false_of_stripped "anthropic/" rfl h4 (by decide)
                (by decide) (by decide) hkf.2.2)
          · by_cases h5 : pyStartsWith m "openai/" = true
            · have hcm : cleanModelName m = pyDrop m 7 := by
                simp [cleanModelName, h3, h4, h5]
              have hkf := keywordfree_of_alias_fixed big small (cleanModelName m)
                hb2 hb3 hs1 h1
              rw [hcm] at hkf
              exact mapModelAlias_eq_self big small m
                (pyContains_false_of_stripped "openai/" rfl h5 (by decide)
                  (by decide) (by decide) hkf.1)
                (pyContains_false_of_stripped "openai/" rfl h5 (by decide)
                  (by decide) (by decide) hkf.2.1)
                (pyContains_false_of_stripped "openai/" rfl h5 (by decide)
                  (by decide) (by decide) hkf.2.2)
            · have hcm : cleanModelName m = m := by
                simp [cleanModelName, h3, h4, h5]
              rw [hcm] at h1
              exact h1
        have hnm : m ∉ geminiModels big small := by
          by_cases h4 : pyStartsWith m "anthropic/" = true
          · exact not_mem_geminiModels_of_prefix h4 (by decide) (by decide)
          · by_cases h5 : pyStartsWith m "openai/" = true
            · exact not_mem_geminiModels_of_prefix h5 (by decide) (by decide)
            · have hcm : cleanModelName m = m := by
                simp [cleanModelName, h3, h4, h5]
              rw [hcm] at h2
              exact h2
        simp [validateAndMapModel, hclean2, haliasm, hnm, pyStartsWith_prefix_append]
  · -- alias mapping changed the name: result is the prefixed alias target
    have hVm : validateAndMapModel big small m =
        ("gemini/" ++ mapModelAlias big small (cleanModelName m), true) := by
      simp [validateAndMapModel, h1]
    rw [hVm]
    have hmapped_val : mapModelAlias big small (cleanModelName m) = small ∨
        mapModelAlias big small (cleanModelName m) = big := by
      rcases mapModelAlias_cases big small (cleanModelName m) with h | h | h
      · exact absurd h h1
      · exact Or.inl h
      · exact Or.inr h
    have hkf : pyContains (pyLower (mapModelAlias big small (cleanModelName m)))
          "haiku" = false ∧
        pyContains (pyLower (mapModelAlias big small (cleanModelName m)))
          "sonnet" = false ∧
        pyContains (pyLower (mapModelAlias big small (cleanModelName m)))
          "opus" = false := by
      rcases hmapped_val with h | h <;> rw [h]
      · exact ⟨hs1, hs2, hs3⟩
      · exact ⟨hb1, hb2, hb3⟩
    generalize hM : mapModelAlias big small (cleanModelName m) = M at hkf ⊢
    have hclean2 : cleanModelName ("gemini/" ++ M) = M := cleanModelName_gemini_append M
    have halias2 : mapModelAlias big small M = M :=
      mapModelAlias_eq_self big small M hkf.1 hkf.2.1 hkf.2.2
    by_cases hmem : M ∈ geminiModels big small
    · simp [validateAndMapModel, hclean2, halias2, hmem]
    · simp [validateAndMapModel, hclean2, halias2, hmem, pyStartsWith_prefix_append]

/-- Witness for `validate_and_map_model_idempotent`: the shipped
default configuration is keyword-free, and resolving a resolved opus
alias a second time leaves it unchanged. -/
theorem validate_and_map_model_idempotent_witness :
    pyContains (pyLower "gemini-2.0-flash-exp") "haiku" = false ∧
    (validateAndMapModel "gemini-2.0-flash-exp" "gemini-1.5-flash-latest"
      (validateAndMapModel "gemini-2.0-flash-exp" "gemini-1.5-flash-latest"
        "claude-3-opus-20240229").1).1 =
      (validateAndMapModel "gemini-2.0-flash-exp" "gemini-1.5-flash-latest"
        "claude-3-opus-20240229").1 :=
  ⟨by decide,
   validate_and_map_model_idempotent "gemini-2.0-flash-exp" "gemini-1.5-flash-latest"
     "claude-3-opus-20240229" (by decide) (by decide) (by decide) (by decide)
     (by decide) (by decide)⟩

end GeminiProxy

namespace GeminiProxy

/-! ## Schema sanitizer (`clean_gemini_schema`, server.py 452-473)

The source pops `additionalProperties` and `default`, conditionally
pops `format`, and then recurses over the values of the remaining keys.
Here the pops and the recursion over the remaining entries are fused
into one structural pass (`cleanSchemaObj`): the popped keys are simply
skipped, which is the same dictionary since keys are unique.  The
format-drop condition is computed, as in the source, on the dictionary
after the two unconditional pops. -/

/-- The condition under which `clean_gemini_schema` pops `format`:
`type` is the string `"string"` and `format` is present with a value
outside `{"enum", "date-time"}`. -/
def formatDropCond (kvs1 : JObj) : Bool :=
  if jGet kvs1 "type" = some (Json.str "string") then
    match jGet kvs1 "format" with
    | some f => if f = Json.str "enum" ∨ f = Json.str "date-time" then false else true
    | none => false
  else false

mutual
/-- `clean_gemini_schema` on a JSON-schema-like value. -/
def cleanGeminiSchema : Json → Json
  | .obj kvs =>
      Json.obj (cleanSchemaObj
        (formatDropCond (jPop (jPop kvs "additionalProperties") "default")) kvs)
  | .arr xs => Json.arr (cleanSchemaArr xs)
  | s => s
/-- `clean_gemini_schema` mapped over list elements. -/
def cleanSchemaArr : JArr → JArr
  | .nil => .nil
  | .cons h t => .cons (cleanGeminiSchema h) (cleanSchemaArr t)
/-- Drop the popped keys and clean the remaining values. -/
def cleanSchemaObj : Bool → JObj → JObj
  | _, .nil => .nil
  | dropFmt, .cons k v t =>
      if k = "additionalProperties" ∨ k = "default" ∨ (dropFmt = true ∧ k = "format")
      then cleanSchemaObj dropFmt t
      else .cons k (cleanGeminiSchema v) (cleanSchemaObj dropFmt t)
end

/-- Key lookup inside a JSON object value. -/
def jGetJ : Json → String → Option Json
  | .obj kvs, k => jGet kvs k
  | _, _ => none

/-- A mapping's retained `format` key is acceptable: whenever `type` is
the string `"string"` and a `format` key is present, its value is
`"enum"` or `"date-time"`. -/
def formatOk (kvs : JObj) : Bool :=
  if jGet kvs "type" = some (Json.str "string") then
    match jGet kvs "format" with
    | some f => if f = Json.str "enum" ∨ f = Json.str "date-time" then true else false
    | none => true
  else true

mutual
/-- A schema value is sanitized: no mapping at any depth has an
`additionalProperties` or `default` key, and any string-typed mapping
retaining a `format` key has an allowed format value. -/
def sanitizedJ : Json → Bool
  | .obj kvs =>
      (jGet kvs "additionalProperties").isNone &&
      (jGet kvs "default").isNone &&
      formatOk kvs &&
      sanitizedO kvs
  | .arr xs => sanitizedA xs
  | _ => true
/-- All elements sanitized. -/
def sanitizedA : JArr → Bool
  | .nil => true
  | .cons h t => sanitizedJ h && sanitizedA t
/-- All member values sanitized. -/
def sanitizedO : JObj → Bool
  | .nil => true
  | .cons _ v t => sanitizedJ v && sanitizedO t
end

/-- Popping one key leaves lookups of other keys unchanged. -/
theorem jGet_jPop_ne (k k' : String) (h : k ≠ k') :
    ∀ kvs : JObj, jGet (jPop kvs k') k = jGet kvs k
  | .nil => rfl
  | .cons k0 v t => by
      by_cases h0 : k0 = k'
      · simp [jPop, jGet, h0, Ne.symm h, jGet_jPop_ne k k' h t]
      · by_cases h1 : k0 = k
        · subst h1
          simp [jPop, jGet, h0]
        · simp [jPop, jGet, h0, h1, jGet_jPop_ne k k' h t]

end GeminiProxy

namespace GeminiProxy

/-- Lookup of a non-popped key in a cleaned object: the cleaned value
of the original binding. -/
theorem jGet_cleanSchemaObj (dropFmt : Bool) (key : String)
    (h1 : key ≠ "additionalProperties") (h2 : key ≠ "default")
    (h3 : ¬(dropFmt = true ∧ key = "format")) :
    ∀ kvs : JObj,
      jGet (cleanSchemaObj dropFmt kvs) key = (jGet kvs key).map cleanGeminiSchema
  | .nil => rfl
  | .cons k v t => by
      by_cases hb : k = "additionalProperties" ∨ k = "default" ∨
          (dropFmt = true ∧ k = "format")
      · have hk : k ≠ key := by
          intro hkk
          subst hkk
          rcases hb with h | h | h
          · exact h1 h
          · exact h2 h
          · exact h3 h
        simp [cleanSchemaObj, hb, jGet, hk,
          jGet_cleanSchemaObj dropFmt key h1 h2 h3 t]
      · by_cases hk : k = key
        · subst hk
          simp [cleanSchemaObj, hb, jGet]
        · simp [cleanSchemaObj, hb, jGet, hk,
            jGet_cleanSchemaObj dropFmt key h1 h2 h3 t]

/-- Lookup of a popped key in a cleaned object is `none`. -/
theorem jGet_cleanSchemaObj_none (dropFmt : Bool) (key : String)
    (h : key = "additionalProperties" ∨ key = "default" ∨
      (dropFmt = true ∧ key = "format")) :
    ∀ kvs : JObj, jGet (cleanSchemaObj dropFmt kvs) key = none
  | .nil => rfl
  | .cons k v t => by
      by_cases hb : k = "additionalProperties" ∨ k = "default" ∨
          (dropFmt = true ∧ k = "format")
      · simp [cleanSchemaObj, hb, jGet_cleanSchemaObj_none dropFmt key h t]
      · have hk : k ≠ key := by
          intro hkk
          subst hkk
          exact hb h
        simp [cleanSchemaObj, hb, jGet, hk, jGet_cleanSchemaObj_none dropFmt key h t]

/-- The sanitizer maps string scalars to themselves, so a cleaned value
is the string `a` exactly when the original was. -/
theorem cleanGeminiSchema_eq_str {t : Json} {a : String}
    (h : cleanGeminiSchema t = Json.str a) : t = Json.str a := by
  cases t <;> first
    | (simp [cleanGeminiSchema] at h; simp [h])
    | simp [cleanGeminiSchema] at h

mutual
/-- Every cleaned schema value is sanitized. -/
theorem sanitizedJ_clean : ∀ s : Json, sanitizedJ (cleanGeminiSchema s) = true
  | .null => rfl
  | .bool _ => rfl
  | .num _ => rfl
  | .str _ => rfl
  | .arr xs => by
      have h := sanitizedA_clean xs
      simp [cleanGeminiSchema, sanitizedJ, h]
  | .obj kvs => by
      have hO := sanitizedO_clean
        (formatDropCond (jPop (jPop kvs "additionalProperties") "default")) kvs
      set D := formatDropCond (jPop (jPop kvs "additionalProperties") "default")
        with hDdef
      have hA1 : jGet (cleanSchemaObj D kvs) "additionalProperties" = none :=
        jGet_cleanSchemaObj_none D _ (Or.inl rfl) kvs
      have hA2 : jGet (cleanSchemaObj D kvs) "default" = none :=
        jGet_cleanSchemaObj_none D _ (Or.inr (Or.inl rfl)) kvs
      have hty : jGet (cleanSchemaObj D kvs) "type" =
          (jGet kvs "type").map cleanGeminiSchema :=
        jGet_cleanSchemaObj D "type" (by decide) (by decide)
          (fun hc => by exact absurd hc.2 (by decide)) kvs
      have hfmtOk : formatOk (cleanSchemaObj D kvs) = true := by
        by_cases hT : jGet kvs "type" = some (Json.str "string")
        · have hty' : jGet (cleanSchemaObj D kvs) "type" = some (Json.str "string") := by
            rw [hty, hT]
            simp [cleanGeminiSchema]
          rcases hF : jGet kvs "format" with _ | f
          · have hfmt : jGet (cleanSchemaObj D kvs) "format" = none := by
              by_cases hD : D = true
              · exact jGet_cleanSchemaObj_none D "format" (Or.inr (Or.inr ⟨hD, rfl⟩)) kvs
              · rw [jGet_cleanSchemaObj D "format" (by decide) (by decide)
                  (fun hc => hD hc.1) kvs, hF]
                rfl
            simp [formatOk, hty', hfmt]
          · have hT1 : jGet (jPop (jPop kvs "additionalProperties") "default") "type" =
                some (Json.str "string") := by
              rw [jGet_jPop_ne "type" "default" (by decide),
                jGet_jPop_ne "type" "additionalProperties" (by decide), hT]
            have hF1 : jGet (jPop (jPop kvs "additionalProperties") "default") "format" =
                some f := by
              rw [jGet_jPop_ne "format" "default" (by decide),
                jGet_jPop_ne "format" "additionalProperties" (by decide), hF]
            by_cases hf : f = Json.str "enum" ∨ f = Json.str "date-time"
            · have hD : D = false := by
                rw [hDdef]
                simp [formatDropCond, hT1, hF1, hf]
              have hfmt : jGet (cleanSchemaObj D kvs) "format" = some f := by
                rw [jGet_cleanSchemaObj D "format" (by decide) (by decide)
                  (fun hc => by rw [hD] at hc; exact absurd hc.1 (by decide)) kvs, hF]
                rcases hf with rfl | rfl <;> simp [cleanGeminiSchema]
              simp [formatOk, hty', hfmt, hf]
            · have hD : D = true := by
                rw [hDdef]
                simp [formatDropCond, hT1, hF1, hf]
              have hfmt : jGet (cleanSchemaObj D kvs) "format" = none :=
                jGet_cleanSchemaObj_none D "format" (Or.inr (Or.inr ⟨hD, rfl⟩)) kvs
              simp [formatOk, hty', hfmt]
        · have hT' : ¬ jGet (cleanSchemaObj D kvs) "type" = some (Json.str "string") := by
            rw [hty]
            intro hcon
            obtain ⟨t0, ht0, hct⟩ := Option.map_eq_some'.mp hcon
            exact hT (by rw [ht0, cleanGeminiSchema_eq_str hct])
          simp [formatOk, hT']
      show sanitizedJ (Json.obj (cleanSchemaObj D kvs)) = true
      simp [sanitizedJ, hA1, hA2, hfmtOk, hO]
/-- Every cleaned array has sanitized elements. -/
theorem sanitizedA_clean : ∀ xs : JArr, sanitizedA (cleanSchemaArr xs) = true
  | .nil => rfl
  | .cons h t => by
      have h1 := sanitizedJ_clean h
      have h2 := sanitizedA_clean t
      simp [cleanSchemaArr, sanitizedA, h1, h2]
/-- Every cleaned object has sanitized member values. -/
theorem sanitizedO_clean :
    ∀ (dropFmt : Bool) (kvs : JObj), sanitizedO (cleanSchemaObj dropFmt kvs) = true
  | _, .nil => rfl
  | dropFmt, .cons k v t => by
      have h1 := sanitizedJ_clean v
      have h2 := sanitizedO_clean dropFmt t
      by_cases hb : k = "additionalProperties" ∨ k = "default" ∨
          (dropFmt = true ∧ k = "format")
      · simp [cleanSchemaObj, hb, h2]
      · simp [cleanSchemaObj, hb, sanitizedO, h1, h2]
end

end GeminiProxy

namespace GeminiProxy

/-- C8: schema sanitization removes `additionalProperties` and
`default` from every mapping at every nesting depth, removes `format`
from every string-typed mapping whose format value is not `"enum"` or
`"date-time"` (keeping those two), leaves every other key bound to its
(recursively sanitized) value, and in particular maps
`{"type":"string","format":"uri","default":"x"}` to
`{"type":"string"}`. -/
theorem clean_gemini_schema_spec :
    (∀ s : Json, sanitizedJ (cleanGeminiSchema s) = true) ∧
    (∀ (kvs : JObj) (key : String) (v : Json),
      key ≠ "additionalProperties" → key ≠ "default" → key ≠ "format" →
      jGet kvs key = some v →
      jGetJ (cleanGeminiSchema (Json.obj kvs)) key = some (cleanGeminiSchema v)) ∧
    (∀ (kvs : JObj) (f : String),
      jGet kvs "type" = some (Json.str "string") →
      jGet kvs "format" = some (Json.str f) →
      (f = "enum" ∨ f = "date-time") →
      jGetJ (cleanGeminiSchema (Json.obj kvs)) "format" = some (Json.str f)) ∧
    cleanGeminiSchema (Json.obj (JObj.cons "type" (Json.str "string")
        (JObj.cons "format" (Json.str "uri")
          (JObj.cons "default" (Json.str "x") JObj.nil)))) =
      Json.obj (JObj.cons "type" (Json.str "string") JObj.nil) := by
  refine ⟨sanitizedJ_clean, ?_, ?_, by decide⟩
  · intro kvs key v hk1 hk2 hk3 hget
    show jGet (cleanSchemaObj
      (formatDropCond (jPop (jPop kvs "additionalProperties") "default")) kvs) key =
      some (cleanGeminiSchema v)
    rw [jGet_cleanSchemaObj _ key hk1 hk2 (fun hc => hk3 hc.2) kvs, hget]
    rfl
  · intro kvs f hT hF hf
    have hT1 : jGet (jPop (jPop kvs "additionalProperties") "default") "type" =
        some (Json.str "string") := by
      rw [jGet_jPop_ne "type" "default" (by decide),
        jGet_jPop_ne "type" "additionalProperties" (by decide), hT]
    have hF1 : jGet (jPop (jPop kvs "additionalProperties") "default") "format" =
        some (Json.str f) := by
      rw [jGet_jPop_ne "format" "default" (by decide),
        jGet_jPop_ne "format" "additionalProperties" (by decide), hF]
    have hf' : Json.str f = Json.str "enum" ∨ Json.str f = Json.str "date-time" := by
      rcases hf with rfl | rfl
      · exact Or.inl rfl
      · exact Or.inr rfl
    have hD : formatDropCond (jPop (jPop kvs "additionalProperties") "default") = false := by
      rcases hf with rfl | rfl <;> simp [formatDropCond, hT1, hF1]
    show jGet (cleanSchemaObj
      (formatDropCond (jPop (jPop kvs "additionalProperties") "default")) kvs) "format" =
      some (Json.str f)
    rw [jGet_cleanSchemaObj _ "format" (by decide) (by decide)
      (fun hc => by rw [hD] at hc; exact absurd hc.1 (by decide)) kvs, hF]
    rcases hf with rfl | rfl <;> simp [cleanGeminiSchema]

/-- Witness for `clean_gemini_schema_spec` at the concrete example
schema: the `type` binding survives cleaning unchanged. -/
theorem clean_gemini_schema_spec_witness :
    jGetJ (cleanGeminiSchema (Json.obj (JObj.cons "type" (Json.str "string")
        (JObj.cons "format" (Json.str "uri")
          (JObj.cons "default" (Json.str "x") JObj.nil))))) "type" =
      some (cleanGeminiSchema (Json.str "string")) :=
  clean_gemini_schema_spec.2.1
    (JObj.cons "type" (Json.str "string")
      (JObj.cons "format" (Json.str "uri")
        (JObj.cons "default" (Json.str "x") JObj.nil)))
    "type" (Json.str "string") (by decide) (by decide) (by decide) (by decide)

end GeminiProxy

namespace GeminiProxy

/-! ## Non-streaming response translation
(`convert_litellm_to_anthropic`, server.py 803-922)

The backend response is either an attribute-shaped litellm
`ModelResponse` or a plain mapping; both shapes are modelled below.
The random UUID-based fallback identifiers are modelled by fixed
placeholder strings. -/

/-- A content block of the frontend response (`ContentBlockText` /
`ContentBlockToolUse`). -/
inductive RespBlock where
  | text (text : String)
  | toolUse (id : String) (name : String) (input : Json)
  deriving DecidableEq

/-- The frontend `Usage` model. -/
structure UsageInfo where
  input_tokens : Nat
  output_tokens : Nat
  cache_creation_input_tokens : Nat := 0
  cache_read_input_tokens : Nat := 0
  deriving DecidableEq

/-- The frontend `MessagesResponse` model. -/
structure MsgResponse where
  id : String
  model : String
  role : String := "assistant"
  content : List RespBlock
  stop_reason : Option String
  stop_sequence : Option String := none
  usage : UsageInfo
  deriving DecidableEq

/-- The slice of `MessagesRequest` the response translator reads. -/
structure RequestInfo where
  model : String
  original_model : Option String
  deriving DecidableEq

/-- Python `a or b` for an optional string `a` (`None` and `""` are
falsy). -/
def pyOrStr (a : Option String) (b : String) : String :=
  match a with
  | some s => if s = "" then b else s
  | none => b

/-- One backend tool-call entry: attribute-shaped, mapping-shaped, or
something else (skipped by the translator).  For the attribute shape a
`none` field models a missing/None attribute, which makes the per-call
handler skip the entry. -/
inductive TCall where
  | attr (id : String) (name : Option String) (arguments : Option String)
  | dict (id : Option String) (name : Option String) (arguments : Option String)
  | other
  deriving DecidableEq

/-- The raw `tool_calls` value: a single entry or a list (the source
wraps a non-list into a singleton list). -/
inductive TCallsVal where
  | single (t : TCall)
  | list (ts : List TCall)
  deriving DecidableEq

/-- Python truthiness of the `tool_calls` value. -/
def tcTruthy : Option TCallsVal → Bool
  | none => false
  | some (.list []) => false
  | some _ => true

/-- `if not isinstance(tool_calls, list): tool_calls = [tool_calls]`
followed by iteration; a falsy value yields no entries. -/
def normalizeToolCalls : Option TCallsVal → List TCall
  | none => []
  | some (.single t) => [t]
  | some (.list ts) => ts

/-- Translate one tool call to a `tool_use` block (server.py 852-884):
skip entries with no name, parse the JSON arguments with a
`raw_arguments` fallback, and skip entries whose extraction or block
construction fails (non-mapping arguments). -/
def processToolCall : TCall → Option RespBlock
  | .dict id name arguments =>
      let toolId := id.getD "tool_placeholder"
      let name' := name.getD ""
      let argumentsStr := arguments.getD "\x7b\x7d"
      if name' = "" then none
      else
        match jsonLoads argumentsStr with
        | some (Json.obj o) => some (.toolUse toolId name' (Json.obj o))
        | some _ => none
        | none => some (.toolUse toolId name'
            (Json.obj (JObj.cons "raw_arguments" (Json.str argumentsStr) JObj.nil)))
  | .attr id name arguments =>
      match name, arguments with
      | some nm, some argumentsStr =>
          if nm = "" then none
          else
            match jsonLoads argumentsStr with
            | some (Json.obj o) => some (.toolUse id nm (Json.obj o))
            | some _ => none
            | none => some (.toolUse id nm
                (Json.obj (JObj.cons "raw_arguments" (Json.str argumentsStr) JObj.nil)))
      | _, _ => none
  | .other => none

/-- Backend usage counters. -/
structure LUsage where
  prompt_tokens : Nat
  completion_tokens : Nat
  deriving DecidableEq

/-- The message inside an attribute-shaped choice. -/
structure OMessage where
  content : Option String
  tool_calls : Option TCallsVal
  deriving DecidableEq

/-- An attribute-shaped choice. -/
structure OChoice where
  message : Option OMessage
  finish_reason : Option String
  deriving DecidableEq

/-- A mapping-shaped choice: `finish_reason` is absent (outer `none`,
defaulted to `"stop"`), explicitly null, or a string. -/
structure DChoice where
  message : Option OMessage
  finish_reason : Option (Option String)
  deriving DecidableEq

/-- A backend response value: attribute-shaped (`choices`/`usage`
attributes) or mapping-shaped. -/
inductive LitellmResponse where
  | obj (choices : List OChoice) (usage : Option LUsage) (id : Option String)
  | dict (choices : List DChoice) (usage : Option LUsage) (id : Option String)
  deriving DecidableEq

/-- The data the translator extracts from either response shape. -/
structure Extracted where
  content_text : String
  tool_calls : Option TCallsVal
  finish_reason : Option String
  response_id : String
  prompt_tokens : Nat
  completion_tokens : Nat
  deriving DecidableEq

/-- Shape-dependent extraction (server.py 806-838). -/
def extractResponse : LitellmResponse → Extracted
  | .obj choices usage id =>
      let message := match choices with | [] => none | c :: _ => c.message
      { content_text := match message with | none => "" | some msg => msg.content.getD ""
        tool_calls := match message with | none => none | some msg => msg.tool_calls
        finish_reason := match choices with | [] => some "stop" | c :: _ => c.finish_reason
        response_id := id.getD "msg_placeholder"
        prompt_tokens := (usage.map (fun u => u.prompt_tokens)).getD 0
        completion_tokens := (usage.map (fun u => u.completion_tokens)).getD 0 }
  | .dict choices usage id =>
      let message := match choices with | [] => none | c :: _ => c.message
      { content_text := match message with | none => "" | some msg => msg.content.getD ""
        tool_calls := match message with | none => none | some msg => msg.tool_calls
        finish_reason :=
          match choices with
          | [] => some "stop"
          | c :: _ => match c.finish_reason with | none => some "stop" | some v => v
        response_id := id.getD "msg_placeholder"
        prompt_tokens := (usage.map (fun u => u.prompt_tokens)).getD 0
        completion_tokens := (usage.map (fun u => u.completion_tokens)).getD 0 }

/-- Substitute a single empty text block when no block was built
(server.py 887-888). -/
def ensureNonemptyContent (blocks : List RespBlock) : List RespBlock :=
  if blocks.isEmpty then [RespBlock.text ""] else blocks

/-- The finish-reason mapping of the non-streaming translator
(server.py 890-898). -/
def mapStopReasonNonStreaming (finish : Option String) (toolCallsTruthy : Bool) : String :=
  if finish = some "length" then "max_tokens"
  else if finish = some "tool_calls" then "tool_use"
  else if finish = none ∧ toolCallsTruthy = true then "tool_use"
  else "end_turn"

/-- Build the content blocks (server.py 840-888). -/
def buildContentBlocks (e : Extracted) : List RespBlock :=
  (if e.content_text ≠ "" then [RespBlock.text e.content_text] else []) ++
    (if tcTruthy e.tool_calls then
      (normalizeToolCalls e.tool_calls).filterMap processToolCall
    else [])

/-- `convert_litellm_to_anthropic`, success path. -/
def convertLitellmToAnthropic (resp : LitellmResponse) (req : RequestInfo) : MsgResponse :=
  let e := extractResponse resp
  { id := e.response_id
    model := pyOrStr req.original_model req.model
    content := ensureNonemptyContent (buildContentBlocks e)
    stop_reason := some (mapStopReasonNonStreaming e.finish_reason (tcTruthy e.tool_calls))
    stop_sequence := none
    usage := { input_tokens := e.prompt_tokens, output_tokens := e.completion_tokens } }

/-- The `except` fallback of `convert_litellm_to_anthropic`
(server.py 913-922). -/
def conversionErrorFallback (req : RequestInfo) : MsgResponse :=
  { id := "msg_error_placeholder"
    model := pyOrStr req.original_model req.model
    content := [RespBlock.text "Response conversion error"]
    stop_reason := some "error"
    stop_sequence := none
    usage := { input_tokens := 0, output_tokens := 0 } }

end GeminiProxy

namespace GeminiProxy

/-- C2: the non-streaming response translator is total over both
backend response shapes — attribute-shaped or mapping-shaped, with zero
choices or absent usage — and always returns a response whose content
holds at least one block; the exception-path fallback returns a
degraded response with exactly one text block describing a conversion
error, stop_reason `error` and zero usage, and is itself a total
function (in this embedding both paths are total Lean functions, which
is the "never raises" property). -/
theorem convert_litellm_to_anthropic_total (resp : LitellmResponse) (req : RequestInfo) :
    1 ≤ (convertLitellmToAnthropic resp req).content.length ∧
    (conversionErrorFallback req).content = [RespBlock.text "Response conversion error"] ∧
    (conversionErrorFallback req).stop_reason = some "error" ∧
    (conversionErrorFallback req).usage.input_tokens = 0 ∧
    (conversionErrorFallback req).usage.output_tokens = 0 := by
  refine ⟨?_, rfl, rfl, rfl, rfl⟩
  show 1 ≤ (ensureNonemptyContent (buildContentBlocks (extractResponse resp))).length
  cases hb : buildContentBlocks (extractResponse resp) with
  | nil => simp [ensureNonemptyContent]
  | cons a l =>
      simp [ensureNonemptyContent]

end GeminiProxy

namespace GeminiProxy

/-! ## Streaming recovery (`handle_streaming_with_recovery`,
server.py 925-1268)

The generator is modelled as a function from the incoming fragment
list to the list of emitted SSE events.  Fragments are raw strings
(buffered and reassembled) or structured mapping-shaped chunks.
Attribute-shaped `ModelResponse` chunks, the asyncio timeout, and the
exception-recovery counters (`consecutive_errors`) are outside this
model: no claim below depends on them.  Tool-call deltas of
mapping-shaped chunks are skipped by the source itself (its
`hasattr(tc_chunk, 'function')` test is false for dicts), so no
tool-use events arise here. -/

/-- The single stray punctuation characters of `is_malformed_chunk`. -/
def malformedSingles : List String :=
  ["\x7b", "\x7d", "[", "]", ",", ":", "\"", "\x27"]

/-- The known broken patterns of `is_malformed_chunk`. -/
def malformedPatterns : List String :=
  ["\x7b\"", "\"\x7d", "[\x7b", "\x7d]", "\x7b\x7d", "[]",
   "null", "\"\"", "\x27\x27", " ", "",
   "\x7b,", ",\x7d", "[,", ",]"]

/-- `is_malformed_chunk` (server.py 956-999). -/
def isMalformedChunk (chunkStr : String) : Bool :=
  if chunkStr = "" then true
  else
    let c := pyStrip chunkStr
    if c = "" then true
    else if malformedSingles.contains c then true
    else if malformedPatterns.contains c then true
    else if pyStartsWith c "\x7b" && !(pyEndsWith c "\x7d") && decide (pyLen c < 15) then true
    else if pyStartsWith c "[" && !(pyEndsWith c "]") && decide (pyLen c < 10) then true
    else if decide (c.data.count '{' ≠ c.data.count '}') && decide (pyLen c < 20) then true
    else if decide (c.data.count '[' ≠ c.data.count ']') && decide (pyLen c < 20) then true
    else false

/-- The scanning loop of `try_parse_buffered_chunk` (server.py
1006-1025): walk the buffer tracking brace depth; when the depth
returns to zero at a closing brace, try `json.loads` on the candidate
slice; on success return the parsed object and the unconsumed
suffix. -/
def tryParseLoop (buf : List Char) : Nat → List Char → Int → Option Nat →
    Option (Json × List Char)
  | _, [], _, _ => none
  | i, c :: rest, count, start =>
      if c = '{' then
        tryParseLoop buf (i + 1) rest (count + 1) (if start = none then some i else start)
      else if c = '}' then
        match start with
        | some sp =>
            if count - 1 = 0 then
              match jsonLoadsL ((buf.drop sp).take (i + 1 - sp)) with
              | some parsed => some (parsed, buf.drop (i + 1))
              | none => tryParseLoop buf (i + 1) rest (count - 1) (some sp)
            else tryParseLoop buf (i + 1) rest (count - 1) (some sp)
        | none => tryParseLoop buf (i + 1) rest (count - 1) none
      else tryParseLoop buf (i + 1) rest count start

/-- `try_parse_buffered_chunk` (server.py 1001-1028): a blank buffer
yields `(none, [])` (clearing it); otherwise scan for the first
balanced JSON object, returning the parse and the remaining buffer. -/
def tryParseBufferedChunk (buffer : List Char) : Option Json × List Char :=
  if pyStripL buffer = [] then (none, [])
  else
    match tryParseLoop buffer 0 buffer 0 none with
    | some (parsed, remaining) => (some parsed, remaining)
    | none => (none, buffer)

/-- The SSE events the streaming handler emits. -/
inductive SEvent where
  | messageStart (inputTokens outputTokens : Nat)
  | contentBlockStart (index : Nat)
  | ping
  | textDelta (index : Nat) (text : String)
  | contentBlockStop (index : Nat)
  | messageDelta (stopReason : String) (inputTokens outputTokens : Nat)
  | messageStop
  deriving DecidableEq

/-- An incoming stream fragment: a raw string or a structured
mapping-shaped chunk. -/
inductive Frag where
  | fstr (s : String)
  | fjson (j : Json)
  deriving DecidableEq

/-- The mutable state of the streaming loop. -/
structure LoopState where
  chunkBuffer : List Char
  malformedCount : Nat
  streamTerminatedEarly : Bool
  accumulatedText : String
  inputTokens : Nat
  outputTokens : Nat
  finalStopReason : String
  events : List SEvent
  allChunks : List Frag
  deriving DecidableEq

/-- A numeric field of a usage mapping (`usage.get(key, 0)`). -/
def jGetNat (kvs : JObj) (k : String) : Nat :=
  match jGet kvs k with
  | some (Json.num n) => n.toNat
  | _ => 0

/-- The first choice's `delta.content` of a mapping-shaped chunk, when
it is a string (server.py 1111-1116). -/
def chunkDeltaContent (j : Json) : Option String :=
  match jGetJ j "choices" with
  | some (Json.arr (JArr.cons choice _)) =>
      match jGetJ choice "delta" with
      | some delta =>
          match jGetJ delta "content" with
          | some (Json.str s) => some s
          | _ => none
      | none => none
  | _ => none

/-- The first choice's `finish_reason` value (server.py 1118). -/
def chunkFinishReason (j : Json) : Option Json :=
  match jGetJ j "choices" with
  | some (Json.arr (JArr.cons choice _)) => jGetJ choice "finish_reason"
  | _ => none

/-- The chunk's `usage` mapping, when present (server.py 1123-1126). -/
def chunkUsage (j : Json) : Option JObj :=
  match jGetJ j "usage" with
  | some (Json.obj u) => some u
  | _ => none

/-- The streaming finish-reason mapping (server.py 1159-1167). -/
def mapStopReasonStreaming (fr : Json) : String :=
  if fr = Json.str "length" then "max_tokens"
  else if fr = Json.str "tool_calls" then "tool_use"
  else if fr = Json.str "stop" then "end_turn"
  else "end_turn"

/-- Process one structured chunk (server.py 1098-1168): take a usage
snapshot, emit a text delta for non-empty delta content, and on a
truthy finish reason set the final stop reason and signal the loop to
stop. -/
def processChunk (j : Json) (st : LoopState) : LoopState × Bool :=
  let st1 :=
    match chunkUsage j with
    | some u => { st with inputTokens := jGetNat u "prompt_tokens",
                          outputTokens := jGetNat u "completion_tokens" }
    | none => st
  let st2 :=
    match chunkDeltaContent j with
    | some s =>
        if s ≠ "" then
          { st1 with accumulatedText := st1.accumulatedText ++ s,
                     events := st1.events ++ [SEvent.textDelta 0 s] }
        else st1
    | none => st1
  match chunkFinishReason j with
  | some fr =>
      if jTruthy fr then
        ({ st2 with finalStopReason := mapStopReasonStreaming fr }, true)
      else (st2, false)
  | none => (st2, false)

/-- The streaming consumption loop over the incoming fragments
(server.py 1034-1168), for string and mapping-shaped chunks: handle
the `[DONE]` sentinel, drop and count malformed fragments (terminating
beyond 20), reassemble buffered strings into JSON chunks, and process
structured chunks until a finish reason arrives. -/
def runStreamLoop : List Frag → LoopState → LoopState
  | [], st => st
  | f :: rest, st0 =>
      let st := { st0 with allChunks := st0.allChunks ++ [f] }
      match f with
      | .fstr s =>
          if pyStrip s = "[DONE]" then st
          else if isMalformedChunk s then
            let m := st.malformedCount + 1
            if m > 20 then
              { st with malformedCount := m, streamTerminatedEarly := true }
            else runStreamLoop rest { st with malformedCount := m }
          else
            match tryParseBufferedChunk (st.chunkBuffer ++ s.data) with
            | (none, buf') =>
                runStreamLoop rest
                  { st with chunkBuffer := if buf'.length > 10000 then [] else buf' }
            | (some j, buf') =>
                match processChunk j { st with chunkBuffer := buf' } with
                | (st', true) => st'
                | (st', false) => runStreamLoop rest st'
      | .fjson j =>
          match processChunk j st with
          | (st', true) => st'
          | (st', false) => runStreamLoop rest st'

/-- The initial loop state.  The running input-token counter starts at
zero: server.py 942 re-binds `input_tokens = 0` after the
`message_start` event was built from the caller-supplied count. -/
def initialLoopState : LoopState :=
  { chunkBuffer := [], malformedCount := 0, streamTerminatedEarly := false,
    accumulatedText := "", inputTokens := 0, outputTokens := 0,
    finalStopReason := "end_turn", events := [], allChunks := [] }

/-- The final loop state for a fragment list. -/
def runStreamState (frags : List Frag) : LoopState :=
  runStreamLoop frags initialLoopState

/-- Modelled from the spec: `litellm.stream_chunk_builder` is an
external library call; per the spec the output token count is
"reconstructed from the full collected raw-chunk history", modelled as
the last completion-token usage snapshot among the collected structured
chunks, absent when no chunk carries usage. -/
def streamChunkBuilderCompletion (chunks : List Frag) : Option Nat :=
  (chunks.filterMap fun f =>
    match f with
    | .fjson j => (chunkUsage j).map (fun u => jGetNat u "completion_tokens")
    | .fstr _ => none).getLast?

/-- `handle_streaming_with_recovery` as an event-list function: the
initial `message_start` (with the caller-computed input tokens) /
`content_block_start` / `ping` events, the loop's events, then the
closing `content_block_stop` / `message_delta` / `message_stop`
events (server.py 929-934 and 1245-1261). -/
def runStream (inputTokens : Nat) (frags : List Frag) : List SEvent :=
  let st := runStreamState frags
  let finalStop :=
    if st.streamTerminatedEarly = true ∧ st.finalStopReason = "end_turn"
    then "error" else st.finalStopReason
  let outTok :=
    match streamChunkBuilderCompletion st.allChunks with
    | some n => n
    | none => st.outputTokens
  [SEvent.messageStart inputTokens 0, SEvent.contentBlockStart 0, SEvent.ping] ++
    st.events ++
    [SEvent.contentBlockStop 0,
     SEvent.messageDelta finalStop st.inputTokens outTok,
     SEvent.messageStop]

/-- The text-delta events of an event list. -/
def textDeltaEvents (events : List SEvent) : List SEvent :=
  events.filter fun e => match e with | .textDelta _ _ => true | _ => false

/-- The input-token count carried by the first `message_start`. -/
def messageStartInputTokens (events : List SEvent) : Option Nat :=
  events.findSome? fun e =>
    match e with | .messageStart it _ => some it | _ => none

/-- The input-token count carried by the final `message_delta`. -/
def messageDeltaInputTokens (events : List SEvent) : Option Nat :=
  events.reverse.findSome? fun e =>
    match e with | .messageDelta _ it _ => some it | _ => none

/-- The stop reason carried by the final `message_delta`. -/
def messageDeltaStopReason (events : List SEvent) : Option String :=
  events.reverse.findSome? fun e =>
    match e with | .messageDelta sr _ _ => some sr | _ => none

end GeminiProxy

namespace GeminiProxy

/-- A chunk with no usage snapshot leaves the running input-token
counter unchanged. -/
theorem processChunk_inputTokens (j : Json) (st : LoopState)
    (h : chunkUsage j = none) :
    (processChunk j st).1.inputTokens = st.inputTokens := by
  unfold processChunk
  rw [h]
  rcases hd : chunkDeltaContent j with _ | s <;>
    rcases hf : chunkFinishReason j with _ | fr <;>
    simp only [hd, hf] <;>
    first
      | rfl
      | (split_ifs <;> rfl)

/-- Over a stream of structured chunks none of which carries a usage
snapshot, the running input-token counter stays zero. -/
theorem runStreamLoop_inputTokens_of_no_usage :
    ∀ (chunks : List Json), (∀ j ∈ chunks, chunkUsage j = none) →
      ∀ st : LoopState, st.inputTokens = 0 →
      (runStreamLoop (chunks.map Frag.fjson) st).inputTokens = 0
  | [], _, st, hst => by simpa [runStreamLoop] using hst
  | j :: tl, h, st, hst => by
      have hj : chunkUsage j = none := h j (List.mem_cons_self _ _)
      simp only [List.map, runStreamLoop]
      rcases hpc : processChunk j { st with allChunks := st.allChunks ++ [Frag.fjson j] }
        with ⟨st', brk⟩
      have hst' : st'.inputTokens = 0 := by
        have := processChunk_inputTokens j
          { st with allChunks := st.allChunks ++ [Frag.fjson j] } hj
        rw [hpc] at this
        simpa [hst] using this
      cases brk
      · exact runStreamLoop_inputTokens_of_no_usage tl
          (fun x hx => h x (List.mem_cons_of_mem _ hx)) st' hst'
      · exact hst'

/-- C10: the `message_start` event reports the caller-precomputed
input-token count, but the handler resets its running counter to zero
before consuming the stream; hence for every stream of structured
chunks with no usage snapshot, the final `message_delta` reports
`input_tokens = 0`, so the two events can disagree. -/
theorem streaming_input_token_reset (it : Nat) (chunks : List Json)
    (h : ∀ j ∈ chunks, chunkUsage j = none) :
    messageStartInputTokens (runStream it (chunks.map Frag.fjson)) = some it ∧
    messageDeltaInputTokens (runStream it (chunks.map Frag.fjson)) = some 0 := by
  have hin : (runStreamState (chunks.map Frag.fjson)).inputTokens = 0 :=
    runStreamLoop_inputTokens_of_no_usage chunks h initialLoopState rfl
  constructor
  · simp [runStream, messageStartInputTokens]
  · simp [runStream, messageDeltaInputTokens, List.reverse_append, hin]

/-- Witness for `streaming_input_token_reset` at a concrete
usage-free stream: `message_start` says 42, `message_delta` says 0. -/
theorem streaming_input_token_reset_witness :
    messageStartInputTokens (runStream 42 ([Json.obj JObj.nil].map Frag.fjson)) =
      some 42 ∧
    messageDeltaInputTokens (runStream 42 ([Json.obj JObj.nil].map Frag.fjson)) =
      some 0 :=
  streaming_input_token_reset 42 [Json.obj JObj.nil] (by decide)

end GeminiProxy


namespace GeminiProxy

/-- Consuming a single structured chunk is one `processChunk` step. -/
theorem runStreamLoop_single_json (j : Json) (st : LoopState) :
    runStreamLoop [Frag.fjson j] st =
      (processChunk j { st with allChunks := st.allChunks ++ [Frag.fjson j] }).1 := by
  simp only [runStreamLoop]
  rcases hpc : processChunk j { st with allChunks := st.allChunks ++ [Frag.fjson j] }
    with ⟨st', brk⟩
  cases brk <;> rfl

/-- `processChunk` never sets the early-termination flag. -/
theorem processChunk_terminatedEarly (j : Json) (st : LoopState) :
    (processChunk j st).1.streamTerminatedEarly = st.streamTerminatedEarly := by
  unfold processChunk
  rcases hcu : chunkUsage j with _ | u <;>
    rcases hcd : chunkDeltaContent j with _ | s <;>
    rcases hcf : chunkFinishReason j with _ | fr <;>
    simp only [hcu, hcd, hcf] <;>
    first
      | rfl
      | (split_ifs <;> rfl)

/-- A chunk with no finish reason leaves the final stop reason
unchanged. -/
theorem processChunk_finalStopReason_none (j : Json) (st : LoopState)
    (h : chunkFinishReason j = none) :
    (processChunk j st).1.finalStopReason = st.finalStopReason := by
  unfold processChunk
  rw [h]
  rcases hcu : chunkUsage j with _ | u <;>
    rcases hcd : chunkDeltaContent j with _ | s <;>
    simp only [hcu, hcd] <;>
    first
      | rfl
      | (split_ifs <;> rfl)

/-- The final `message_delta` stop reason emitted by the handler:
`error` when the stream was terminated early while the stop reason was
still the default, else the tracked stop reason (server.py
1252-1260). -/
theorem messageDeltaStopReason_runStream (it : Nat) (frags : List Frag) :
    messageDeltaStopReason (runStream it frags) =
      some (if (runStreamState frags).streamTerminatedEarly = true ∧
              (runStreamState frags).finalStopReason = "end_turn"
            then "error" else (runStreamState frags).finalStopReason) := by
  simp [runStream, messageDeltaStopReason, List.reverse_append, List.findSome?_cons]

end GeminiProxy

namespace GeminiProxy

/-- A structured chunk carrying only a `finish_reason` string in its
first choice. -/
def finishChunk (fr : String) : Json :=
  Json.obj (JObj.cons "choices"
    (Json.arr (JArr.cons
      (Json.obj (JObj.cons "finish_reason" (Json.str fr) JObj.nil)) JArr.nil))
    JObj.nil)

/-- A structured chunk carrying a tool-call delta and a null
`finish_reason` in its first choice. -/
def toolCallsNullFinishChunk : Json :=
  Json.obj (JObj.cons "choices"
    (Json.arr (JArr.cons
      (Json.obj (JObj.cons "delta"
        (Json.obj (JObj.cons "tool_calls"
          (Json.arr (JArr.cons (Json.obj JObj.nil) JArr.nil)) JObj.nil))
        (JObj.cons "finish_reason" Json.null JObj.nil)))
      JArr.nil))
    JObj.nil)

/-- C9 (counterexample to the claim as stated): for the same backend
data — tool calls present, finish reason null — the non-streaming
translator reports `tool_use` but the streaming handler's final
`message_delta` reports `end_turn`; the absent-with-tool-calls rule is
not applied on the streaming path. -/
theorem finish_reason_streaming_counterexample :
    (convertLitellmToAnthropic
      (LitellmResponse.dict
        [DChoice.mk
          (some (OMessage.mk none (some (TCallsVal.list [TCall.other]))))
          (some none)] none none)
      (RequestInfo.mk "m" none)).stop_reason = some "tool_use" ∧
    messageDeltaStopReason (runStream 0 [Frag.fjson toolCallsNullFinishChunk]) =
      some "end_turn" ∧
    chunkFinishReason toolCallsNullFinishChunk = some Json.null := by
  refine ⟨by decide, ?_, by decide⟩
  rw [messageDeltaStopReason_runStream]
  decide

end GeminiProxy

namespace GeminiProxy

/-- C9 (amended): finish-reason mapping is a pure total function on
each path; both paths map `"length"` to `max_tokens`, `"tool_calls"`
to `tool_use`, `"stop"` to `end_turn`, and any other present value to
`end_turn`; the non-streaming path additionally maps an absent finish
reason with tool calls present to `tool_use` and applies the mapping to
every translated response, while the streaming path applies its mapping
only to present (truthy) per-chunk finish reasons, a stream ending
without one keeping the default `end_turn`. -/
theorem finish_reason_mapping_paths :
    (∀ tc : Bool, mapStopReasonNonStreaming (some "length") tc = "max_tokens") ∧
    (∀ tc : Bool, mapStopReasonNonStreaming (some "tool_calls") tc = "tool_use") ∧
    (∀ tc : Bool, mapStopReasonNonStreaming (some "stop") tc = "end_turn") ∧
    mapStopReasonNonStreaming none true = "tool_use" ∧
    mapStopReasonNonStreaming none false = "end_turn" ∧
    (∀ s : String, ∀ tc : Bool, s ≠ "length" → s ≠ "tool_calls" →
      mapStopReasonNonStreaming (some s) tc = "end_turn") ∧
    (∀ (resp : LitellmResponse) (req : RequestInfo),
      (convertLitellmToAnthropic resp req).stop_reason =
        some (mapStopReasonNonStreaming (extractResponse resp).finish_reason
          (tcTruthy (extractResponse resp).tool_calls))) ∧
    mapStopReasonStreaming (Json.str "length") = "max_tokens" ∧
    mapStopReasonStreaming (Json.str "tool_calls") = "tool_use" ∧
    mapStopReasonStreaming (Json.str "stop") = "end_turn" ∧
    (∀ s : String, s ≠ "length" → s ≠ "tool_calls" →
      mapStopReasonStreaming (Json.str s) = "end_turn") ∧
    (∀ fr : String, fr ≠ "" →
      messageDeltaStopReason (runStream 0 [Frag.fjson (finishChunk fr)]) =
        some (mapStopReasonStreaming (Json.str fr))) ∧
    (∀ (it : Nat) (j : Json), chunkFinishReason j = none →
      messageDeltaStopReason (runStream it [Frag.fjson j]) = some "end_turn") := by
  refine ⟨fun _ => rfl, fun _ => rfl, ?_, rfl, rfl, ?_, fun resp req => rfl,
    rfl, rfl, rfl, ?_, ?_, ?_⟩
  · intro tc
    simp [mapStopReasonNonStreaming]
  · intro s tc h1 h2
    simp [mapStopReasonNonStreaming, h1, h2]
  · intro s h1 h2
    simp [mapStopReasonStreaming, h1, h2]
  · intro fr hfr
    rw [messageDeltaStopReason_runStream]
    have hcf : chunkFinishReason (finishChunk fr) = some (Json.str fr) := by
      simp [chunkFinishReason, finishChunk, jGetJ, jGet]
    have hcd : chunkDeltaContent (finishChunk fr) = none := by
      simp [chunkDeltaContent, finishChunk, jGetJ, jGet]
    have hcu : chunkUsage (finishChunk fr) = none := by
      simp [chunkUsage, finishChunk, jGetJ, jGet]
    have htr : jTruthy (Json.str fr) = true := by simp [jTruthy, hfr]
    have hstate : runStreamState [Frag.fjson (finishChunk fr)] =
        (processChunk (finishChunk fr)
          { initialLoopState with allChunks := [Frag.fjson (finishChunk fr)] }).1 := by
      rw [runStreamState, runStreamLoop_single_json]
      rfl
    have hstop : (processChunk (finishChunk fr)
        { initialLoopState with allChunks := [Frag.fjson (finishChunk fr)] }).1.finalStopReason =
        mapStopReasonStreaming (Json.str fr) := by
      unfold processChunk
      rw [hcf, hcu, hcd]
      simp [htr]
    have hterm := processChunk_terminatedEarly (finishChunk fr)
      { initialLoopState with allChunks := [Frag.fjson (finishChunk fr)] }
    rw [hstate, hstop, hterm]
    simp [initialLoopState]
  · intro it j hcf
    rw [messageDeltaStopReason_runStream]
    have hstate : runStreamState [Frag.fjson j] =
        (processChunk j { initialLoopState with allChunks := [Frag.fjson j] }).1 := by
      rw [runStreamState, runStreamLoop_single_json]
      rfl
    rw [hstate]
    rw [processChunk_finalStopReason_none j _ hcf]
    have hterm := processChunk_terminatedEarly j
      { initialLoopState with allChunks := [Frag.fjson j] }
    rw [hterm]
    simp [initialLoopState]

end GeminiProxy

namespace GeminiProxy

/-- Witness for `finish_reason_mapping_paths` at concrete inputs: an
unrecognized finish reason maps to `end_turn` on the non-streaming
path, and a stream whose only chunk has no finish reason ends with
`end_turn`. -/
theorem finish_reason_mapping_paths_witness :
    mapStopReasonNonStreaming (some "content_filter") true = "end_turn" ∧
    mapStopReasonStreaming (Json.str "content_filter") = "end_turn" ∧
    messageDeltaStopReason (runStream 5 [Frag.fjson (Json.obj JObj.nil)]) =
      some "end_turn" ∧
    messageDeltaStopReason (runStream 0 [Frag.fjson (finishChunk "length")]) =
      some (mapStopReasonStreaming (Json.str "length")) :=
  ⟨finish_reason_mapping_paths.2.2.2.2.2.1 "content_filter" true (by decide) (by decide),
   finish_reason_mapping_paths.2.2.2.2.2.2.2.2.2.2.1 "content_filter"
     (by decide) (by decide),
   finish_reason_mapping_paths.2.2.2.2.2.2.2.2.2.2.2.2 5 (Json.obj JObj.nil) (by decide),
   finish_reason_mapping_paths.2.2.2.2.2.2.2.2.2.2.2.1 "length" (by decide)⟩

end GeminiProxy

namespace GeminiProxy

/-- `processChunk` never touches the malformed counter, the
termination flag, or the reassembly buffer. -/
theorem processChunk_proj (j : Json) (st : LoopState) :
    (processChunk j st).1.malformedCount = st.malformedCount ∧
    (processChunk j st).1.streamTerminatedEarly = st.streamTerminatedEarly ∧
    (processChunk j st).1.chunkBuffer = st.chunkBuffer := by
  unfold processChunk
  rcases hcu : chunkUsage j with _ | u <;>
    rcases hcd : chunkDeltaContent j with _ | s <;>
    rcases hcf : chunkFinishReason j with _ | fr <;>
    simp only [hcu, hcd, hcf] <;>
    first
      | (split_ifs <;> simp)
      | simp

/-- A chunk with a non-empty text delta and no finish reason appends
exactly one `text_delta` event and does not stop the loop. -/
theorem processChunk_events_content (j : Json) (st : LoopState) (s : String)
    (hc : chunkDeltaContent j = some s) (hs : s ≠ "")
    (hf : chunkFinishReason j = none) :
    (processChunk j st).1.events = st.events ++ [SEvent.textDelta 0 s] ∧
    (processChunk j st).2 = false := by
  unfold processChunk
  rw [hc, hf]
  rcases hcu : chunkUsage j with _ | u <;> simp [hs]

end GeminiProxy

namespace GeminiProxy

/-- Dropping a malformed fragment while at most 20 have been seen:
count it and continue. -/
theorem runStreamLoop_malformed_step (s : String) (rest : List Frag) (st : LoopState)
    (hm : isMalformedChunk s = true) (hd : pyStrip s ≠ "[DONE]")
    (hle : st.malformedCount + 1 ≤ 20) :
    runStreamLoop (Frag.fstr s :: rest) st =
      runStreamLoop rest
        { st with allChunks := st.allChunks ++ [Frag.fstr s],
                  malformedCount := st.malformedCount + 1 } := by
  have hno : ¬(st.malformedCount + 1 > 20) := by omega
  simp [runStreamLoop, hm, hd, hno]

/-- Dropping a malformed fragment beyond the threshold terminates the
stream early. -/
theorem runStreamLoop_malformed_step_over (s : String) (rest : List Frag)
    (st : LoopState)
    (hm : isMalformedChunk s = true) (hd : pyStrip s ≠ "[DONE]")
    (hgt : st.malformedCount + 1 > 20) :
    runStreamLoop (Frag.fstr s :: rest) st =
      { st with allChunks := st.allChunks ++ [Frag.fstr s],
                malformedCount := st.malformedCount + 1,
                streamTerminatedEarly := true } := by
  simp [runStreamLoop, hm, hd, hgt]

/-- Consuming a complete well-formed string chunk on an empty buffer:
parse it and process the structured chunk, continuing when it carries
no finish reason. -/
theorem runStreamLoop_valid_step (s : String) (rest : List Frag) (st : LoopState)
    (hv : isMalformedChunk s = false) (hd : pyStrip s ≠ "[DONE]")
    (hbuf : st.chunkBuffer = []) (j : Json)
    (htp : tryParseBufferedChunk s.data = (some j, []))
    (hbrk : (processChunk j
      { st with allChunks := st.allChunks ++ [Frag.fstr s], chunkBuffer := [] }).2 =
        false) :
    runStreamLoop (Frag.fstr s :: rest) st =
      runStreamLoop rest
        (processChunk j
          { st with allChunks := st.allChunks ++ [Frag.fstr s], chunkBuffer := [] }).1 := by
  simp only [runStreamLoop]
  rw [if_neg hd]
  simp only [hv, Bool.false_eq_true, if_false]
  rw [hbuf]
  simp only [List.nil_append]
  rw [htp]
  show (match processChunk j
      { st with allChunks := st.allChunks ++ [Frag.fstr s], chunkBuffer := [] } with
    | (st', true) => st'
    | (st', false) => runStreamLoop rest st') =
    runStreamLoop rest
      (processChunk j
        { st with allChunks := st.allChunks ++ [Frag.fstr s], chunkBuffer := [] }).1
  rcases hpc : processChunk j
      { st with allChunks := st.allChunks ++ [Frag.fstr s], chunkBuffer := [] }
    with ⟨st2, brk⟩
  rw [hpc] at hbrk
  simp only at hbrk
  subst hbrk
  rfl

end GeminiProxy


namespace GeminiProxy

/-- A malformed/valid fragment pair for the interleaving scenario: the
valid string is a complete well-formed chunk parsing to `parsed`,
which carries the non-empty text delta `content` and no finish
reason. -/
structure InterleavePair where
  malformed : String
  valid : String
  parsed : Json
  content : String
  deriving DecidableEq

/-- The scenario hypotheses on one pair. -/
def goodPair (p : InterleavePair) : Prop :=
  isMalformedChunk p.malformed = true ∧ pyStrip p.malformed ≠ "[DONE]" ∧
  isMalformedChunk p.valid = false ∧ pyStrip p.valid ≠ "[DONE]" ∧
  tryParseBufferedChunk p.valid.data = (some p.parsed, []) ∧
  chunkDeltaContent p.parsed = some p.content ∧ p.content ≠ "" ∧
  chunkFinishReason p.parsed = none

instance (p : InterleavePair) : Decidable (goodPair p) := by
  unfold goodPair
  infer_instance

/-- The fragment stream of an interleaving: malformed then valid, per
pair. -/
def interleaveFrags (pairs : List InterleavePair) : List Frag :=
  (pairs.map fun p => [Frag.fstr p.malformed, Frag.fstr p.valid]).flatten

/-- Consuming one malformed/valid pair below the threshold: the
malformed fragment is counted and dropped, the valid chunk is parsed
and processed, and the loop continues in a state with one more
malformed fragment counted, one more `text_delta` event, and an empty
buffer. -/
theorem runStreamLoop_pair_step (p : InterleavePair) (rest : List Frag)
    (st : LoopState) (hp : goodPair p) (hbuf : st.chunkBuffer = [])
    (hle : st.malformedCount + 1 ≤ 20) :
    ∃ st2 : LoopState,
      runStreamLoop (Frag.fstr p.malformed :: Frag.fstr p.valid :: rest) st =
        runStreamLoop rest st2 ∧
      st2.malformedCount = st.malformedCount + 1 ∧
      st2.streamTerminatedEarly = st.streamTerminatedEarly ∧
      st2.events = st.events ++ [SEvent.textDelta 0 p.content] ∧
      st2.chunkBuffer = [] := by
  obtain ⟨hm, hmd, hv, hvd, htp, hcd, hcne, hcf⟩ := hp
  rw [runStreamLoop_malformed_step _ _ _ hm hmd hle]
  set st1 : LoopState :=
    { st with allChunks := st.allChunks ++ [Frag.fstr p.malformed],
              malformedCount := st.malformedCount + 1 } with hst1
  have hbuf1 : st1.chunkBuffer = [] := hbuf
  obtain ⟨hpe, hpbrk⟩ := processChunk_events_content p.parsed
    { st1 with allChunks := st1.allChunks ++ [Frag.fstr p.valid], chunkBuffer := [] }
    p.content hcd hcne hcf
  rw [runStreamLoop_valid_step _ _ _ hv hvd hbuf1 p.parsed htp hpbrk]
  obtain ⟨hqm, hqt, hqb⟩ := processChunk_proj p.parsed
    { st1 with allChunks := st1.allChunks ++ [Frag.fstr p.valid], chunkBuffer := [] }
  refine ⟨_, rfl, ?_, ?_, ?_, ?_⟩
  · rw [hqm]
  · rw [hqt]
  · rw [hpe]
  · rw [hqb]

/-- Interleaving malformed fragments with complete valid chunks while
the malformed count stays within the threshold: every valid chunk is
processed (one `text_delta` each, in order), the malformed count grows
by the number of malformed fragments, the stream is not terminated
early, and the buffer ends empty. -/
theorem interleave_loop :
    ∀ (pairs : List InterleavePair), (∀ p ∈ pairs, goodPair p) →
      ∀ st : LoopState, st.chunkBuffer = [] →
        st.malformedCount + pairs.length ≤ 20 →
        (runStreamLoop (interleaveFrags pairs) st).malformedCount =
            st.malformedCount + pairs.length ∧
          (runStreamLoop (interleaveFrags pairs) st).streamTerminatedEarly =
            st.streamTerminatedEarly ∧
          (runStreamLoop (interleaveFrags pairs) st).events =
            st.events ++ pairs.map (fun p => SEvent.textDelta 0 p.content) ∧
          (runStreamLoop (interleaveFrags pairs) st).chunkBuffer = []
  | [], _, st, hbuf, _ => by simp [interleaveFrags, runStreamLoop, hbuf]
  | p :: tl, h, st, hbuf, hle => by
      have hjoin : interleaveFrags (p :: tl) =
          Frag.fstr p.malformed :: Frag.fstr p.valid :: interleaveFrags tl := by
        simp [interleaveFrags]
      have hle1 : st.malformedCount + 1 ≤ 20 := by
        simp only [List.length_cons] at hle
        omega
      obtain ⟨st2, hrun, h2m, h2t, h2e, h2b⟩ :=
        runStreamLoop_pair_step p (interleaveFrags tl) st
          (h p (List.mem_cons_self _ _)) hbuf hle1
      rw [hjoin, hrun]
      obtain ⟨ih1, ih2, ih3, ih4⟩ :=
        interleave_loop tl (fun q hq => h q (List.mem_cons_of_mem _ hq)) st2 h2b
          (by
            rw [h2m]
            simp only [List.length_cons] at hle
            omega)
      refine ⟨?_, ?_, ?_, ih4⟩
      · rw [ih1, h2m]
        simp only [List.length_cons]
        omega
      · rw [ih2, h2t]
      · rw [ih3, h2e]
        simp

end GeminiProxy

namespace GeminiProxy

/-- C5: a fragment is rejected as malformed exactly under the stated
conditions (on its stripped form): empty/whitespace-only, a single
stray punctuation character, a known broken pattern, a short unclosed
brace (<15) or bracket (<10) opener, or short (<20) with unbalanced
brace or bracket counts; malformed fragments are dropped and counted,
terminating the stream early exactly when the count exceeds 20; hence
interleaving 5 malformed fragments with 5 complete valid chunks
processes all 5 valid chunks and ends with malformed count 5 and no
early termination. -/
theorem is_malformed_chunk_resilience :
    (∀ s : String, isMalformedChunk s = true ↔
      (pyStrip s = "" ∨
       malformedSingles.contains (pyStrip s) = true ∨
       malformedPatterns.contains (pyStrip s) = true ∨
       (pyStartsWith (pyStrip s) "\x7b" = true ∧ pyEndsWith (pyStrip s) "\x7d" = false ∧
         pyLen (pyStrip s) < 15) ∨
       (pyStartsWith (pyStrip s) "[" = true ∧ pyEndsWith (pyStrip s) "]" = false ∧
         pyLen (pyStrip s) < 10) ∨
       ((pyStrip s).data.count '{' ≠ (pyStrip s).data.count '}' ∧
         pyLen (pyStrip s) < 20) ∨
       ((pyStrip s).data.count '[' ≠ (pyStrip s).data.count ']' ∧
         pyLen (pyStrip s) < 20))) ∧
    (∀ (st : LoopState) (s : String) (rest : List Frag),
      isMalformedChunk s = true → pyStrip s ≠ "[DONE]" →
      (st.malformedCount + 1 ≤ 20 →
        runStreamLoop (Frag.fstr s :: rest) st =
          runStreamLoop rest
            { st with allChunks := st.allChunks ++ [Frag.fstr s],
                      malformedCount := st.malformedCount + 1 }) ∧
      (st.malformedCount + 1 > 20 →
        runStreamLoop (Frag.fstr s :: rest) st =
          { st with allChunks := st.allChunks ++ [Frag.fstr s],
                    malformedCount := st.malformedCount + 1,
                    streamTerminatedEarly := true })) ∧
    (∀ pairs : List InterleavePair, pairs.length = 5 →
      (∀ p ∈ pairs, goodPair p) →
      (runStreamState (interleaveFrags pairs)).malformedCount = 5 ∧
      (runStreamState (interleaveFrags pairs)).streamTerminatedEarly = false ∧
      (runStreamState (interleaveFrags pairs)).events =
        pairs.map (fun p => SEvent.textDelta 0 p.content)) := by
  refine ⟨?_, ?_, ?_⟩
  · intro s
    by_cases h0 : s = ""
    · subst h0
      simp [isMalformedChunk, pyStrip, pyStripL]
    · rw [isMalformedChunk, if_neg h0]
      dsimp only
      split_ifs with h1 h2 h3 h4 h5 h6 h7 <;> simp_all
  · intro st s rest hm hd
    exact ⟨fun hle => runStreamLoop_malformed_step s rest st hm hd hle,
           fun hgt => runStreamLoop_malformed_step_over s rest st hm hd hgt⟩
  · intro pairs hlen h
    obtain ⟨h1, h2, h3, _⟩ := interleave_loop pairs h initialLoopState rfl
      (by rw [hlen]; simp [initialLoopState])
    rw [runStreamState] at *
    refine ⟨?_, ?_, ?_⟩
    · rw [h1, hlen]
      rfl
    · rw [h2]
      rfl
    · rw [h3]
      rfl

end GeminiProxy

namespace GeminiProxy

/-- The mapping-shaped chunk `{"choices":[{"delta":{"content": t}}]}`. -/
def sampleChunkJson (t : String) : Json :=
  Json.obj (JObj.cons "choices"
    (Json.arr (JArr.cons
      (Json.obj (JObj.cons "delta"
        (Json.obj (JObj.cons "content" (Json.str t) JObj.nil)) JObj.nil))
      JArr.nil)) JObj.nil)

/-- The serialized text of `sampleChunkJson t`. -/
def serializeTextChunk (t : String) : String :=
  "\x7b\"choices\":[\x7b\"delta\":\x7b\"content\":\"" ++ t ++ "\"\x7d\x7d]\x7d"

/-- Five malformed/valid pairs: a stray `"{"` before each of five
complete valid chunks. -/
def interleaveWitnessPairs : List InterleavePair :=
  ["h1", "h2", "h3", "h4", "h5"].map fun t =>
    { malformed := "\x7b", valid := serializeTextChunk t,
      parsed := sampleChunkJson t, content := t }

/-- Witness for `is_malformed_chunk_resilience`: the concrete 5+5
interleaving yields all five text deltas, malformed count 5, and no
early termination; and a stray `"{"` is recognised as malformed. -/
theorem is_malformed_chunk_resilience_witness :
    (runStreamState (interleaveFrags interleaveWitnessPairs)).malformedCount = 5 ∧
    (runStreamState (interleaveFrags interleaveWitnessPairs)).streamTerminatedEarly =
      false ∧
    (runStreamState (interleaveFrags interleaveWitnessPairs)).events =
      interleaveWitnessPairs.map (fun p => SEvent.textDelta 0 p.content) ∧
    isMalformedChunk "\x7b" = true := by
  obtain ⟨w1, w2, w3⟩ :=
    is_malformed_chunk_resilience.2.2 interleaveWitnessPairs rfl (by decide)
  exact ⟨w1, w2, w3,
    (is_malformed_chunk_resilience.1 "\x7b").mpr (Or.inr (Or.inl (by decide)))⟩

end GeminiProxy

namespace GeminiProxy

/-! ## Request translation (`convert_anthropic_to_litellm`,
server.py 619-736), message part

The per-message loop with its accumulators (text parts, image parts,
tool calls, pending tool messages, flushed messages) is modelled by a
fold over the message's content blocks. -/

/-- An item of a list-shaped tool-result content: a string or a
mapping (other item kinds are skipped by the source). -/
inductive TRItem where
  | str (s : String)
  | dict (fields : JObj)
  deriving DecidableEq

/-- A `ToolResult` block's content: absent, a string, a list of mixed
items, or a single mapping. -/
inductive TRContent where
  | none
  | str (s : String)
  | list (items : List TRItem)
  | dict (fields : JObj)
  deriving DecidableEq

/-- `item.get("text", "")`: the raw stored value of the `text` key,
whatever its type, or the empty string when the key is absent. -/
def getTextField (fields : JObj) : Json :=
  match jGet fields "text" with
  | some v => v
  | none => Json.str ""

/-- Python `"\n".join(parts)` over raw part values: it raises
`TypeError` (modelled as `none`) when some part is not a string. -/
def joinableParts : List Json → Option (List String)
  | [] => some []
  | Json.str s :: rest => (joinableParts rest).map fun tl => s :: tl
  | _ => none

/-- `parse_tool_result_content` (server.py 580-616).  The result is
the raw Python value the function returns (a string on most paths, but
the raw `text` value — possibly a non-string — on the dict path), and
`none` when the list-branch string join raises `TypeError` on a
non-string part. -/
def parseToolResultContent : TRContent → Option Json
  | .none => some (Json.str "No content provided")
  | .str s => some (Json.str s)
  | .list items =>
      let resultParts : List Json := items.map fun item =>
        match item with
        | .str s => Json.str s
        | .dict fields =>
            if jGet fields "type" = some (Json.str "text") then getTextField fields
            else if (jGet fields "text").isSome then getTextField fields
            else Json.str (jsonDumps (Json.obj fields))
      match joinableParts resultParts with
      | some strs => some (Json.str (pyStrip (String.intercalate "\n" strs)))
      | none => none
  | .dict fields =>
      if jGet fields "type" = some (Json.str "text") then some (getTextField fields)
      else some (Json.str (jsonDumps (Json.obj fields)))

/-- An image block's `source` mapping. -/
structure ImgSource where
  type : String
  media_type : Option String
  data : Option String
  deriving DecidableEq

/-- A frontend content block. -/
inductive ABlock where
  | text (text : String)
  | image (source : ImgSource)
  | toolUse (id : String) (name : String) (input : JObj)
  | toolResult (tool_use_id : String) (content : TRContent)
  deriving DecidableEq

/-- A frontend message's content: plain text or blocks. -/
inductive AContent where
  | str (s : String)
  | blocks (bs : List ABlock)
  deriving DecidableEq

/-- A frontend message. -/
structure AMessage where
  role : String
  content : AContent
  deriving DecidableEq

/-- A backend multimodal content part. -/
inductive LPart where
  | text (text : String)
  | imageUrl (url : String)
  deriving DecidableEq

/-- A backend message content: a bare string or typed parts. -/
inductive LContent where
  | str (s : String)
  | parts (ps : List LPart)
  deriving DecidableEq

/-- A backend tool-call descriptor. -/
structure LToolCall where
  id : String
  name : String
  arguments : String
  deriving DecidableEq

/-- A backend message. -/
inductive LMessage where
  | system (content : String)
  | user (content : LContent)
  | assistant (content : Option LContent) (tool_calls : List LToolCall)
  | tool (tool_call_id : String) (content : Json)
  deriving DecidableEq

/-- The image-url string of a valid base64 image source. -/
def imagePartOf (src : ImgSource) : LPart :=
  LPart.imageUrl ("data:" ++ src.media_type.getD "" ++ ";base64," ++ src.data.getD "")

/-- The image-source validity test of the translator. -/
def validImgSource (src : ImgSource) : Prop :=
  src.type = "base64" ∧ src.media_type.isSome ∧ src.data.isSome

instance (src : ImgSource) : Decidable (validImgSource src) := by
  unfold validImgSource
  infer_instance

/-- The accumulators of the per-message loop. -/
structure MsgAccum where
  textParts : List String
  imageParts : List LPart
  toolCalls : List LToolCall
  pendingToolMessages : List LMessage
  flushed : List LMessage
  deriving DecidableEq

/-- The user-content collapse: a single text part becomes a bare
string, otherwise the (possibly empty) part list is kept. -/
def buildUserContent (textParts : List String) (imageParts : List LPart) : LContent :=
  let t := pyStrip (String.join textParts)
  let parts := (if t ≠ "" then [LPart.text t] else []) ++ imageParts
  match parts with
  | [LPart.text s] => LContent.str s
  | ps => LContent.parts ps

/-- One step of the content-block loop (server.py 652-696); `none`
models an uncaught `TypeError` escaping from
`parse_tool_result_content` and aborting the translation. -/
def processBlock (role : String) (acc : MsgAccum) (b : ABlock) : Option MsgAccum :=
  match b with
  | .text t => some { acc with textParts := acc.textParts ++ [t] }
  | .image src =>
      if validImgSource src then
        some { acc with imageParts := acc.imageParts ++ [imagePartOf src] }
      else some acc
  | .toolUse id name input =>
      if role = "assistant" then
        some { acc with toolCalls := acc.toolCalls ++
            [⟨id, name, jsonDumps (Json.obj input)⟩] }
      else some acc
  | .toolResult tuid content =>
      if role = "user" then
        let acc1 :=
          if acc.textParts ≠ [] ∨ acc.imageParts ≠ [] then
            { acc with
                flushed := acc.flushed ++
                  [LMessage.user (buildUserContent acc.textParts acc.imageParts)],
                textParts := [], imageParts := [] }
          else acc
        match parseToolResultContent content with
        | some v =>
            some { acc1 with pendingToolMessages := acc1.pendingToolMessages ++
                [LMessage.tool tuid v] }
        | none => none
      else some acc

/-- Translate one frontend message into backend messages
(server.py 641-736); `none` is an uncaught `TypeError` from a
tool-result block. -/
def convertOneMessage (msg : AMessage) : Option (List LMessage) :=
  match msg.content with
  | .str s =>
      if msg.role = "user" then some [LMessage.user (LContent.str s)]
      else some [LMessage.assistant (some (LContent.str s)) []]
  | .blocks bs =>
      match bs.foldlM (processBlock msg.role) ⟨[], [], [], [], []⟩ with
      | none => none
      | some acc =>
          if msg.role = "user" then
            some (acc.flushed ++
              (if acc.textParts ≠ [] ∨ acc.imageParts ≠ [] then
                [LMessage.user (buildUserContent acc.textParts acc.imageParts)]
              else []) ++ acc.pendingToolMessages)
          else
            let contentOpt : Option LContent :=
              let t := pyStrip (String.join acc.textParts)
              let parts := (if t ≠ "" then [LPart.text t] else []) ++ acc.imageParts
              match parts with
              | [] => none
              | [LPart.text s] => some (LContent.str s)
              | ps => some (LContent.parts ps)
            if contentOpt.isSome ∨ acc.toolCalls ≠ [] then
              some (acc.flushed ++ [LMessage.assistant contentOpt acc.toolCalls])
            else some acc.flushed

/-- Translate the message sequence (the per-message loop appends each
message's output in order); an uncaught `TypeError` aborts the whole
translation, so no message list is produced. -/
def convertMessages : List AMessage → Option (List LMessage)
  | [] => some []
  | m :: rest =>
      match convertOneMessage m with
      | none => none
      | some ms =>
          match convertMessages rest with
          | none => none
          | some r => some (ms ++ r)

/-- The text strings a block prefix accumulates. -/
def gatherTexts (bs : List ABlock) : List String :=
  bs.filterMap fun b => match b with | .text t => some t | _ => none

/-- The image parts a block prefix accumulates. -/
def gatherImages (bs : List ABlock) : List LPart :=
  bs.filterMap fun b =>
    match b with
    | .image src => if validImgSource src then some (imagePartOf src) else none
    | _ => none

/-- The prefix-block kinds the split claim quantifies over. -/
def isTextOrImage : ABlock → Prop
  | .text _ => True
  | .image _ => True
  | _ => False

instance (b : ABlock) : Decidable (isTextOrImage b) := by
  unfold isTextOrImage
  cases b <;> infer_instance

end GeminiProxy

namespace GeminiProxy

/-- Folding the block loop over text/image blocks never raises and
only accumulates text and image parts. -/
theorem foldl_textimage :
    ∀ (ps : List ABlock), (∀ b ∈ ps, isTextOrImage b) →
      ∀ acc : MsgAccum,
        ps.foldlM (processBlock "user") acc =
          some { acc with textParts := acc.textParts ++ gatherTexts ps,
                          imageParts := acc.imageParts ++ gatherImages ps }
  | [], _, acc => by simp [gatherTexts, gatherImages]
  | b :: tl, h, acc => by
      have htl : ∀ x ∈ tl, isTextOrImage x := fun x hx => h x (List.mem_cons_of_mem _ hx)
      match b with
      | .text t =>
          rw [List.foldlM_cons]
          rw [show processBlock "user" acc (ABlock.text t) =
            some { acc with textParts := acc.textParts ++ [t] } from rfl]
          show tl.foldlM (processBlock "user")
            { acc with textParts := acc.textParts ++ [t] } = _
          rw [foldl_textimage tl htl]
          simp [gatherTexts, gatherImages]
      | .image src =>
          rw [List.foldlM_cons]
          by_cases hv : validImgSource src
          · rw [show processBlock "user" acc (ABlock.image src) =
              some { acc with imageParts := acc.imageParts ++ [imagePartOf src] }
              from by simp [processBlock, hv]]
            show tl.foldlM (processBlock "user")
              { acc with imageParts := acc.imageParts ++ [imagePartOf src] } = _
            rw [foldl_textimage tl htl]
            simp [gatherTexts, gatherImages, hv]
          · rw [show processBlock "user" acc (ABlock.image src) = some acc
              from by simp [processBlock, hv]]
            show tl.foldlM (processBlock "user") acc = _
            rw [foldl_textimage tl htl]
            simp [gatherTexts, gatherImages, hv]
      | .toolUse id name input => exact absurd (h _ (List.mem_cons_self _ _)) (by simp [isTextOrImage])
      | .toolResult tuid c => exact absurd (h _ (List.mem_cons_self _ _)) (by simp [isTextOrImage])

/-- C3 (counterexample to the claim as stated): a user message whose
content is one image block with a non-base64 source followed by a
ToolResult block translates to exactly one backend message (the
tool-role message), not two. -/
theorem tool_result_split_counterexample :
    convertOneMessage
      ⟨"user", AContent.blocks
        [ABlock.image ⟨"url", some "image/png", some "d"⟩,
         ABlock.toolResult "tid" (TRContent.str "ok")]⟩ =
      some [LMessage.tool "tid" (Json.str "ok")] ∧
    ((convertOneMessage
      ⟨"user", AContent.blocks
        [ABlock.image ⟨"url", some "image/png", some "d"⟩,
         ABlock.toolResult "tid" (TRContent.str "ok")]⟩).getD []).length = 1 := by
  refine ⟨by decide, by decide⟩

/-- C3 (amended): for every user message whose block content is text
and/or image blocks followed by one ToolResult block, where at least
one text block or one valid base64 image block is present, translation
mirrors `parse_tool_result_content` exactly: when the parse returns a
value it emits exactly two backend messages — a user message with the
accumulated preceding content, then a tool-role message whose
`tool_call_id` is the ToolResult\x27s `tool_use_id` and whose content
is the parsed value — and when the parse raises `TypeError` (a
non-string `text` part in list content) the translation aborts with
no messages. -/
theorem tool_result_split (ps : List ABlock) (tuid : String) (c : TRContent)
    (hps : ∀ b ∈ ps, isTextOrImage b)
    (hne : gatherTexts ps ≠ [] ∨ gatherImages ps ≠ []) :
    convertMessages [⟨"user", AContent.blocks (ps ++ [ABlock.toolResult tuid c])⟩] =
      (parseToolResultContent c).map
        (fun v =>
          [LMessage.user (buildUserContent (gatherTexts ps) (gatherImages ps)),
           LMessage.tool tuid v]) := by
  have hstep : processBlock "user"
      { (⟨[], [], [], [], []⟩ : MsgAccum) with
          textParts := [] ++ gatherTexts ps,
          imageParts := [] ++ gatherImages ps }
      (ABlock.toolResult tuid c) =
        (parseToolResultContent c).map
          (fun v => (⟨[], [], [], [LMessage.tool tuid v],
            [LMessage.user (buildUserContent (gatherTexts ps) (gatherImages ps))]⟩ :
              MsgAccum)) := by
    rcases hv : parseToolResultContent c with _ | v
    · simp [processBlock, hne, hv]
    · simp [processBlock, hne, hv]
  have hsc : (ps ++ [ABlock.toolResult tuid c]).foldlM (processBlock "user")
      (⟨[], [], [], [], []⟩ : MsgAccum) =
        (parseToolResultContent c).map
          (fun v => (⟨[], [], [], [LMessage.tool tuid v],
            [LMessage.user (buildUserContent (gatherTexts ps) (gatherImages ps))]⟩ :
              MsgAccum)) := by
    rw [List.foldlM_append, foldl_textimage ps hps]
    show (ABlock.toolResult tuid c :: []).foldlM (processBlock "user")
      { (⟨[], [], [], [], []⟩ : MsgAccum) with
          textParts := [] ++ gatherTexts ps,
          imageParts := [] ++ gatherImages ps } = _
    rw [List.foldlM_cons, hstep]
    rcases parseToolResultContent c with _ | v
    · rfl
    · show ([] : List ABlock).foldlM (processBlock "user") _ = _
      rfl
  have hone : convertOneMessage
      ⟨"user", AContent.blocks (ps ++ [ABlock.toolResult tuid c])⟩ =
        (parseToolResultContent c).map
          (fun v =>
            [LMessage.user (buildUserContent (gatherTexts ps) (gatherImages ps)),
             LMessage.tool tuid v]) := by
    unfold convertOneMessage
    dsimp only
    rw [hsc]
    rcases parseToolResultContent c with _ | v
    · rfl
    · simp
  unfold convertMessages
  rw [hone]
  rcases parseToolResultContent c with _ | v
  · rfl
  · simp [convertMessages]

/-- Witness for `tool_result_split` at a concrete message: text
`"Result:"` followed by a ToolResult whose list content normalizes to
`"a\nb"` splits into exactly the user and tool messages. -/
theorem tool_result_split_witness :
    convertMessages [⟨"user", AContent.blocks
      ([ABlock.text "Result:"] ++ [ABlock.toolResult "t1"
        (TRContent.list
          [TRItem.dict (JObj.cons "type" (Json.str "text")
            (JObj.cons "text" (Json.str "a") JObj.nil)),
           TRItem.dict (JObj.cons "type" (Json.str "text")
            (JObj.cons "text" (Json.str "b") JObj.nil))])])⟩] =
      some [LMessage.user (LContent.str "Result:"),
        LMessage.tool "t1" (Json.str "a\nb")] := by
  have h := tool_result_split [ABlock.text "Result:"] "t1"
    (TRContent.list
      [TRItem.dict (JObj.cons "type" (Json.str "text")
        (JObj.cons "text" (Json.str "a") JObj.nil)),
       TRItem.dict (JObj.cons "type" (Json.str "text")
        (JObj.cons "text" (Json.str "b") JObj.nil))])
    (by decide) (Or.inl (by decide))
  rw [h]
  decide

end GeminiProxy


namespace GeminiProxy

/-- The brace profile under which the buffer scan can never fire: at
every closing brace the decremented depth is non-zero. -/
def noHit : List Char → Int → Bool
  | [], _ => true
  | ch :: rs, c =>
      if ch = '{' then noHit rs (c + 1)
      else if ch = '}' then decide (c - 1 ≠ 0) && noHit rs (c - 1)
      else noHit rs c

/-- Under a `noHit` profile the scanning loop returns nothing. -/
theorem tryParseLoop_none_of_noHit :
    ∀ (cs : List Char) (count : Int), noHit cs count = true →
      ∀ (buf : List Char) (i : Nat) (start : Option Nat),
        tryParseLoop buf i cs count start = none
  | [], _, _, _, _, _ => rfl
  | ch :: rs, count, h, buf, i, start => by
      by_cases h1 : ch = '{'
      · subst h1
        simp only [noHit, if_pos rfl] at h
        simp only [tryParseLoop, if_pos rfl]
        exact tryParseLoop_none_of_noHit rs (count + 1) h buf (i + 1) _
      · by_cases h2 : ch = '}'
        · subst h2
          simp only [noHit, if_neg (by decide : ¬('}' = '{')), if_pos rfl, if_true] at h
          rw [Bool.and_eq_true, decide_eq_true_eq] at h
          obtain ⟨hne, h'⟩ := h
          cases start with
          | none =>
              simp only [tryParseLoop, if_neg (by decide : ¬('}' = '{')), if_pos rfl,
                if_true]
              exact tryParseLoop_none_of_noHit rs (count - 1) h' buf (i + 1) none
          | some sp =>
              simp only [tryParseLoop, if_neg (by decide : ¬('}' = '{')), if_pos rfl,
                if_true, if_neg hne]
              exact tryParseLoop_none_of_noHit rs (count - 1) h' buf (i + 1) (some sp)
        · simp only [noHit, if_neg h1, if_neg h2] at h
          simp only [tryParseLoop, if_neg h1, if_neg h2]
          exact tryParseLoop_none_of_noHit rs count h buf (i + 1) start

/-- `noHit` is closed under prefixes. -/
theorem noHit_prefix :
    ∀ (l pre : List Char) (c : Int), noHit l c = true → pre <+: l →
      noHit pre c = true
  | _, [], _, _, _ => rfl
  | [], p :: ps, _, _, hpre => by simp at hpre
  | ch :: rs, p :: ps, c, h, hpre => by
      rw [List.cons_prefix_cons] at hpre
      obtain ⟨hp, hps⟩ := hpre
      subst hp
      by_cases h1 : p = '{'
      · subst h1
        simp only [noHit, if_pos rfl] at h ⊢
        exact noHit_prefix rs ps (c + 1) h hps
      · by_cases h2 : p = '}'
        · subst h2
          simp only [noHit, if_neg (by decide : ¬('}' = '{')), if_pos rfl, if_true] at h ⊢
          rw [Bool.and_eq_true] at h ⊢
          exact ⟨h.1, noHit_prefix rs ps (c - 1) h.2 hps⟩
        · simp only [noHit, if_neg h1, if_neg h2] at h ⊢
          exact noHit_prefix rs ps c h hps

/-- Prepending a brace-free segment preserves a `noHit` profile. -/
theorem noHit_append_nobrace :
    ∀ (a : List Char), (∀ ch ∈ a, ch ≠ '{' ∧ ch ≠ '}') →
      ∀ (b : List Char) (c : Int), noHit b c = true → noHit (a ++ b) c = true
  | [], _, _, _, h => h
  | ch :: a, ha, b, c, h => by
      obtain ⟨h1, h2⟩ := ha ch (List.mem_cons_self _ _)
      show noHit (ch :: (a ++ b)) c = true
      simp only [noHit, if_neg h1, if_neg h2]
      exact noHit_append_nobrace a (fun x hx => ha x (List.mem_cons_of_mem _ hx)) b c h

/-- The scan skips a brace-free segment, advancing the index. -/
theorem tryParseLoop_skip :
    ∀ (a : List Char), (∀ ch ∈ a, ch ≠ '{' ∧ ch ≠ '}') →
      ∀ (buf : List Char) (i : Nat) (rest : List Char) (count : Int)
        (start : Option Nat),
        tryParseLoop buf i (a ++ rest) count start =
          tryParseLoop buf (i + a.length) rest count start
  | [], _, buf, i, rest, count, start => rfl
  | ch :: a, ha, buf, i, rest, count, start => by
      obtain ⟨h1, h2⟩ := ha ch (List.mem_cons_self _ _)
      show tryParseLoop buf i (ch :: (a ++ rest)) count start = _
      simp only [tryParseLoop, if_neg h1, if_neg h2]
      have ih := tryParseLoop_skip a (fun x hx => ha x (List.mem_cons_of_mem _ hx))
        buf (i + 1) rest count start
      have harith : i + (ch :: a).length = (i + 1) + a.length := by
        simp only [List.length_cons]
        omega
      rw [harith]
      exact ih

end GeminiProxy

namespace GeminiProxy

/-- Parsing a string body free of quotes and backslashes consumes it up to the closing quote. -/
theorem parseStrBody_clean :
    ∀ (l : List Char), (∀ c ∈ l, c ≠ '"' ∧ c ≠ '\\') →
      ∀ (r : List Char), parseStrBody (l ++ '"' :: r) = some (l, r)
  | [], _, r => by
      rw [parseStrBody.eq_def]
      simp
  | c :: l, h, r => by
      obtain ⟨h1, h2⟩ := h c (List.mem_cons_self _ _)
      show parseStrBody (c :: (l ++ '"' :: r)) = _
      rw [parseStrBody.eq_def]
      dsimp only
      rw [if_neg h1, if_neg h2]
      rw [parseStrBody_clean l (fun x hx => h x (List.mem_cons_of_mem _ hx)) r]
      rfl

/-- Parsing a quoted clean string value. -/
theorem parseVal_string (fuel : Nat) (t : String)
    (ht : ∀ c ∈ t.data, c ≠ '"' ∧ c ≠ '\\') (r : List Char) :
    parseVal (fuel + 1) ('"' :: (t.data ++ '"' :: r)) = some (Json.str t, r) := by
  show (parseStrBody (t.data ++ '"' :: r)).map
    (fun p => (Json.str (String.mk p.1), p.2)) = _
  rw [parseStrBody_clean t.data ht r]
  simp [stringMk_data]

/-- Parsing a single-member object body. -/
theorem parseMembers_single (fuel : Nat) (k : String)
    (hk : ∀ c ∈ k.data, c ≠ '"' ∧ c ≠ '\\') (vs : List Char) (v : Json)
    (r : List Char) (hv : parseVal fuel vs = some (v, '}' :: r)) :
    parseMembers (fuel + 1) ('"' :: (k.data ++ '"' :: ':' :: vs)) =
      some (JObj.cons k v JObj.nil, r) := by
  have hws : skipWs ('"' :: (k.data ++ '"' :: ':' :: vs)) =
      '"' :: (k.data ++ '"' :: ':' :: vs) := rfl
  have hws2 : skipWs (':' :: vs) = ':' :: vs := rfl
  have hws3 : skipWs ('}' :: r) = '}' :: r := rfl
  rw [parseMembers.eq_def]
  dsimp only
  simp only [hws, parseStrBody_clean k.data hk (':' :: vs), hws2, hv, hws3,
    stringMk_data]

/-- Parsing an object value whose members start at a quoted key. -/
theorem parseVal_obj (fuel : Nat) (ms : List Char) (o : JObj) (r : List Char)
    (hm : parseMembers fuel ('"' :: ms) = some (o, r)) :
    parseVal (fuel + 1) ('{' :: '"' :: ms) = some (Json.obj o, r) := by
  show (parseMembers fuel ('"' :: ms)).map (fun p => (Json.obj p.1, p.2)) = _
  rw [hm]
  rfl

/-- Parsing a one-element array body whose element is an object. -/
theorem parseElems_single (fuel : Nat) (vs : List Char) (v : Json)
    (r : List Char) (hv : parseVal fuel vs = some (v, ']' :: r)) :
    parseElems (fuel + 1) vs = some (JArr.cons v JArr.nil, r) := by
  rw [parseElems.eq_def]
  dsimp only
  rw [hv]
  dsimp only
  have hws : skipWs (']' :: r) = ']' :: r := rfl
  rw [hws]
  rfl

/-- Parsing a one-element array value. -/
theorem parseVal_arr (fuel : Nat) (es : List Char) (xs : JArr) (r : List Char)
    (he : parseElems fuel ('{' :: es) = some (xs, r)) :
    parseVal (fuel + 1) ('[' :: '{' :: es) = some (Json.arr xs, r) := by
  show (parseElems fuel ('{' :: es)).map (fun p => (Json.arr p.1, p.2)) = _
  rw [he]
  rfl

/-- The serialized text-delta chunk parses to its structured form, for any fuel at least nine and any clean text. -/
theorem parseVal_template (fuel : Nat) (t : String)
    (ht : ∀ c ∈ t.data, c ≠ '"' ∧ c ≠ '\\') :
    parseVal (fuel + 9) (serializeTextChunk t).data =
      some (sampleChunkJson t, []) := by
  have v8 := parseVal_string fuel t ht ('}' :: '}' :: ']' :: '}' :: [])
  have m7 := parseMembers_single (fuel + 1) "content" (by decide)
    ('"' :: (t.data ++ '"' :: '}' :: '}' :: ']' :: '}' :: [])) (Json.str t)
    ('}' :: ']' :: '}' :: []) v8
  have v6 := parseVal_obj (fuel + 2)
    ("content".data ++ '"' :: ':' :: ('"' :: (t.data ++ '"' :: '}' :: '}' :: ']' :: '}' :: [])))
    (JObj.cons "content" (Json.str t) JObj.nil) ('}' :: ']' :: '}' :: []) m7
  have m5 := parseMembers_single (fuel + 3) "delta" (by decide)
    ('{' :: '"' :: ("content".data ++ '"' :: ':' :: ('"' :: (t.data ++ '"' :: '}' :: '}' :: ']' :: '}' :: []))))
    (Json.obj (JObj.cons "content" (Json.str t) JObj.nil)) (']' :: '}' :: []) v6
  have v4 := parseVal_obj (fuel + 4)
    ("delta".data ++ '"' :: ':' :: ('{' :: '"' :: ("content".data ++ '"' :: ':' :: ('"' :: (t.data ++ '"' :: '}' :: '}' :: ']' :: '}' :: [])))))
    (JObj.cons "delta" (Json.obj (JObj.cons "content" (Json.str t) JObj.nil)) JObj.nil)
    (']' :: '}' :: []) m5
  have e3 := parseElems_single (fuel + 5)
    ('{' :: '"' :: ("delta".data ++ '"' :: ':' :: ('{' :: '"' :: ("content".data ++ '"' :: ':' :: ('"' :: (t.data ++ '"' :: '}' :: '}' :: ']' :: '}' :: []))))))
    (Json.obj (JObj.cons "delta" (Json.obj (JObj.cons "content" (Json.str t) JObj.nil)) JObj.nil))
    ('}' :: []) v4
  have v2 := parseVal_arr (fuel + 6)
    ('"' :: ("delta".data ++ '"' :: ':' :: ('{' :: '"' :: ("content".data ++ '"' :: ':' :: ('"' :: (t.data ++ '"' :: '}' :: '}' :: ']' :: '}' :: []))))))
    (JArr.cons (Json.obj (JObj.cons "delta" (Json.obj (JObj.cons "content" (Json.str t) JObj.nil)) JObj.nil)) JArr.nil)
    ('}' :: []) e3
  have m1 := parseMembers_single (fuel + 7) "choices" (by decide)
    ('[' :: '{' :: '"' :: ("delta".data ++ '"' :: ':' :: ('{' :: '"' :: ("content".data ++ '"' :: ':' :: ('"' :: (t.data ++ '"' :: '}' :: '}' :: ']' :: '}' :: []))))))
    (Json.arr (JArr.cons (Json.obj (JObj.cons "delta" (Json.obj (JObj.cons "content" (Json.str t) JObj.nil)) JObj.nil)) JArr.nil))
    [] v2
  have v0 := parseVal_obj (fuel + 8)
    ("choices".data ++ '"' :: ':' :: ('[' :: '{' :: '"' :: ("delta".data ++ '"' :: ':' :: ('{' :: '"' :: ("content".data ++ '"' :: ':' :: ('"' :: (t.data ++ '"' :: '}' :: '}' :: ']' :: '}' :: [])))))))
    (JObj.cons "choices" (Json.arr (JArr.cons (Json.obj (JObj.cons "delta" (Json.obj (JObj.cons "content" (Json.str t) JObj.nil)) JObj.nil)) JArr.nil)) JObj.nil)
    [] m1
  have hdata : (serializeTextChunk t).data =
      '{' :: '"' :: ("choices".data ++ '"' :: ':' :: ('[' :: '{' :: '"' :: ("delta".data ++ '"' :: ':' :: ('{' :: '"' :: ("content".data ++ '"' :: ':' :: ('"' :: (t.data ++ '"' :: '}' :: '}' :: ']' :: '}' :: []))))))) := rfl
  rw [hdata]
  exact v0

/-- Model of `json.loads` on the serialized text-delta chunk: it
yields the structured chunk, for any clean text. -/
theorem jsonLoadsL_template (t : String)
    (ht : ∀ c ∈ t.data, c ≠ '"' ∧ c ≠ '\\') :
    jsonLoadsL (serializeTextChunk t).data = some (sampleChunkJson t) := by
  have hdata : (serializeTextChunk t).data =
      '\x7b' :: '"' :: ("choices".data ++ '"' :: ':' :: ('[' :: '\x7b' :: '"' :: ("delta".data ++ '"' :: ':' :: ('\x7b' :: '"' :: ("content".data ++ '"' :: ':' :: ('"' :: (t.data ++ '"' :: '\x7d' :: '\x7d' :: ']' :: '\x7d' :: []))))))) := rfl
  have hlen : (serializeTextChunk t).data.length = t.data.length + 38 := by
    rw [hdata]
    simp [List.length_append]
  have hfuel : (serializeTextChunk t).data.length + 1 =
      (t.data.length + 30) + 9 := by omega
  unfold jsonLoadsL
  rw [hfuel, parseVal_template (t.data.length + 30) t ht]
  rfl

end GeminiProxy

namespace GeminiProxy

/-- Net brace depth of a character segment, as tracked by the scanning
loop of `try_parse_buffered_chunk`. -/
def netDepth : List Char → Int
  | [] => 0
  | ch :: rs => (if ch = '{' then 1 else if ch = '}' then -1 else 0) + netDepth rs

/-- The `noHit` profile splits along appends, shifting the depth by the
net depth of the first segment. -/
theorem noHit_append :
    ∀ (a b : List Char) (c : Int),
      noHit (a ++ b) c = (noHit a c && noHit b (c + netDepth a))
  | [], b, c => by simp [noHit, netDepth]
  | ch :: a, b, c => by
      by_cases h1 : ch = '{'
      · subst h1
        show noHit ('{' :: (a ++ b)) c = _
        simp only [noHit, netDepth, if_pos rfl, if_true]
        rw [noHit_append a b (c + 1)]
        have : c + 1 + netDepth a = c + (1 + netDepth a) := by ring
        rw [this]
      · by_cases h2 : ch = '}'
        · subst h2
          show noHit ('}' :: (a ++ b)) c = _
          simp only [noHit, netDepth, if_neg (by decide : ¬('}' = '{')), if_pos rfl,
            if_true]
          rw [noHit_append a b (c - 1)]
          have : c - 1 + netDepth a = c + (-1 + netDepth a) := by ring
          rw [this, Bool.and_assoc]
        · show noHit (ch :: (a ++ b)) c = _
          simp only [noHit, netDepth, if_neg h1, if_neg h2]
          rw [noHit_append a b c]
          have : (0 : Int) + netDepth a = netDepth a := by ring
          rw [this]

/-- Brace-free segments have zero net depth. -/
theorem netDepth_bracefree :
    ∀ (l : List Char), (∀ ch ∈ l, ch ≠ '{' ∧ ch ≠ '}') → netDepth l = 0
  | [], _ => rfl
  | ch :: l, h => by
      obtain ⟨h1, h2⟩ := h ch (List.mem_cons_self _ _)
      show (if ch = '{' then 1 else if ch = '}' then -1 else 0) + netDepth l = 0
      rw [if_neg h1, if_neg h2, netDepth_bracefree l
        (fun x hx => h x (List.mem_cons_of_mem _ hx))]
      rfl

/-- Brace-free segments satisfy every `noHit` profile. -/
theorem noHit_bracefree (l : List Char) (h : ∀ ch ∈ l, ch ≠ '{' ∧ ch ≠ '}')
    (c : Int) : noHit l c = true := by
  have := noHit_append_nobrace l h [] c rfl
  rwa [List.append_nil] at this

/-- When the scan reaches the closing brace of the first balanced
object (its interior having a `noHit` profile), it attempts a parse of
the candidate slice and otherwise returns nothing. -/
theorem tryParseLoop_final_hit :
    ∀ (mid : List Char) (count : Int), noHit mid count = true →
      count + netDepth mid = 1 →
      ∀ (buf : List Char) (i sp : Nat),
        tryParseLoop buf i (mid ++ ['}']) count (some sp) =
          (jsonLoadsL ((buf.drop sp).take (i + mid.length + 1 - sp))).map
            (fun parsed => (parsed, buf.drop (i + mid.length + 1)))
  | [], count, _, hd, buf, i, sp => by
      have hc : count = 1 := by
        have : netDepth ([] : List Char) = 0 := rfl
        omega
      subst hc
      show tryParseLoop buf i ('}' :: []) 1 (some sp) = _
      simp only [tryParseLoop, if_neg (by decide : ¬('}' = '{')), if_pos rfl,
        if_true]
      have h0 : (1 : Int) - 1 = 0 := by ring
      rw [if_pos h0]
      rcases hj : jsonLoadsL ((buf.drop sp).take (i + 1 - sp)) with _ | parsed
      · simp only [List.length_nil]
        have : i + 0 + 1 = i + 1 := by omega
        rw [this, hj]
        rfl
      · simp only [List.length_nil]
        have : i + 0 + 1 = i + 1 := by omega
        rw [this, hj]
        rfl
  | ch :: mid, count, h, hd, buf, i, sp => by
      have hdc : (if ch = '{' then (1 : Int) else if ch = '}' then -1 else 0) +
          netDepth mid = netDepth (ch :: mid) := rfl
      by_cases h1 : ch = '{'
      · subst h1
        simp only [noHit, if_pos rfl, if_true] at h
        rw [if_pos rfl] at hdc
        show tryParseLoop buf i ('{' :: (mid ++ ['}'])) count (some sp) = _
        simp only [tryParseLoop, if_pos rfl, if_true]
        have hst : (if (some sp : Option Nat) = none then some i else some sp) =
            some sp := by simp
        rw [hst]
        rw [tryParseLoop_final_hit mid (count + 1) h (by omega) buf (i + 1) sp]
        have : i + 1 + mid.length + 1 = i + ('{' :: mid).length + 1 := by
          simp only [List.length_cons]
          omega
        rw [this]
      · by_cases h2 : ch = '}'
        · subst h2
          simp only [noHit, if_neg (by decide : ¬('}' = '{')), if_pos rfl,
            if_true] at h
          rw [Bool.and_eq_true, decide_eq_true_eq] at h
          obtain ⟨hne, h'⟩ := h
          rw [if_neg (by decide : ¬('}' = '{')), if_pos rfl] at hdc
          show tryParseLoop buf i ('}' :: (mid ++ ['}'])) count (some sp) = _
          simp only [tryParseLoop, if_neg (by decide : ¬('}' = '{')), if_pos rfl,
            if_true, if_neg hne]
          rw [tryParseLoop_final_hit mid (count - 1) h' (by omega) buf (i + 1) sp]
          have : i + 1 + mid.length + 1 = i + ('}' :: mid).length + 1 := by
            simp only [List.length_cons]
            omega
          rw [this]
        · simp only [noHit, if_neg h1, if_neg h2] at h
          rw [if_neg h1, if_neg h2] at hdc
          show tryParseLoop buf i (ch :: (mid ++ ['}'])) count (some sp) = _
          simp only [tryParseLoop, if_neg h1, if_neg h2]
          rw [tryParseLoop_final_hit mid count h (by omega) buf (i + 1) sp]
          have : i + 1 + mid.length + 1 = i + (ch :: mid).length + 1 := by
            simp only [List.length_cons]
            omega
          rw [this]

end GeminiProxy

namespace GeminiProxy

/-- Stripping a string whose first character is not whitespace keeps
that character first. -/
theorem pyStripL_head (c : Char) (l : List Char) (hc : pyIsSpace c = false) :
    (pyStripL (c :: l)).head? = some c := by
  unfold pyStripL
  rw [List.dropWhile_cons, hc]
  simp only [Bool.false_eq_true, if_false]
  rw [List.head?_reverse, List.reverse_cons]
  have hne : List.dropWhile pyIsSpace (l.reverse ++ [c]) ≠ [] := by
    rw [Ne, List.dropWhile_eq_nil_iff]
    intro hall
    have := hall c (by simp)
    rw [hc] at this
    exact absurd this (by simp)
  have hsuf : List.dropWhile pyIsSpace (l.reverse ++ [c]) <:+ (l.reverse ++ [c]) :=
    List.dropWhile_suffix pyIsSpace
  obtain ⟨w, hw⟩ := hsuf
  have h1 := List.getLast?_append_of_ne_nil w hne
  rw [hw] at h1
  rw [← h1, List.getLast?_concat]

/-- Stripping a string whose last character is not whitespace keeps
that character last. -/
theorem pyStripL_last (l : List Char) (c : Char) (hc : pyIsSpace c = false)
    (hl : l.getLast? = some c) : (pyStripL l).getLast? = some c := by
  unfold pyStripL
  rw [List.getLast?_reverse]
  have hne : List.dropWhile pyIsSpace l ≠ [] := by
    rw [Ne, List.dropWhile_eq_nil_iff]
    intro hall
    have := hall c (List.mem_of_mem_getLast? hl)
    rw [hc] at this
    exact absurd this (by simp)
  have hlast : (List.dropWhile pyIsSpace l).getLast? = some c := by
    have hsuf : List.dropWhile pyIsSpace l <:+ l := List.dropWhile_suffix pyIsSpace
    obtain ⟨w, hw⟩ := hsuf
    have h1 := List.getLast?_append_of_ne_nil w hne
    rw [hw] at h1
    rw [← h1]
    exact hl
  obtain ⟨z, hz⟩ : ∃ z, (List.dropWhile pyIsSpace l).reverse = c :: z := by
    rcases hrev : (List.dropWhile pyIsSpace l).reverse with _ | ⟨a, z⟩
    · rw [← List.head?_reverse, hrev] at hlast
      exact absurd hlast (by simp)
    · rw [← List.head?_reverse, hrev] at hlast
      simp only [List.head?_cons, Option.some.injEq] at hlast
      exact ⟨z, by rw [hlast]⟩
  rw [hz, List.dropWhile_cons, hc]
  simp

end GeminiProxy

namespace GeminiProxy

/-- Net depth adds along appends. -/
theorem netDepth_append :
    ∀ (a b : List Char), netDepth (a ++ b) = netDepth a + netDepth b
  | [], b => by simp [netDepth]
  | ch :: a, b => by
      show netDepth (ch :: (a ++ b)) = _
      simp only [netDepth]
      rw [netDepth_append a b]
      ring

/-- Consuming a non-malformed fragment that does not complete a JSON
object buffers it (when the grown buffer is within the cap) and
continues. -/
theorem runStreamLoop_buffer_step (s : String) (rest : List Frag) (st : LoopState)
    (hv : isMalformedChunk s = false) (hd : pyStrip s ≠ "[DONE]") (buf' : List Char)
    (htp : tryParseBufferedChunk (st.chunkBuffer ++ s.data) = (none, buf'))
    (hlen : ¬(buf'.length > 10000)) :
    runStreamLoop (Frag.fstr s :: rest) st =
      runStreamLoop rest
        { st with allChunks := st.allChunks ++ [Frag.fstr s],
                  chunkBuffer := buf' } := by
  simp only [runStreamLoop]
  rw [if_neg hd]
  simp only [hv, Bool.false_eq_true, if_false]
  rw [htp]
  simp only [if_neg hlen]

/-- Consuming a non-malformed fragment that completes the buffered
JSON object parses and processes it, continuing when the chunk does
not stop the loop. -/
theorem runStreamLoop_complete_step (s : String) (rest : List Frag) (st : LoopState)
    (hv : isMalformedChunk s = false) (hd : pyStrip s ≠ "[DONE]") (j : Json)
    (buf' : List Char)
    (htp : tryParseBufferedChunk (st.chunkBuffer ++ s.data) = (some j, buf'))
    (hbrk : (processChunk j
      { st with allChunks := st.allChunks ++ [Frag.fstr s],
                chunkBuffer := buf' }).2 = false) :
    runStreamLoop (Frag.fstr s :: rest) st =
      runStreamLoop rest
        (processChunk j
          { st with allChunks := st.allChunks ++ [Frag.fstr s],
                    chunkBuffer := buf' }).1 := by
  simp only [runStreamLoop]
  rw [if_neg hd]
  simp only [hv, Bool.false_eq_true, if_false]
  rw [htp]
  show (match processChunk j
      { st with allChunks := st.allChunks ++ [Frag.fstr s],
                chunkBuffer := buf' } with
    | (st', true) => st'
    | (st', false) => runStreamLoop rest st') = _
  rcases hpc : processChunk j
      { st with allChunks := st.allChunks ++ [Frag.fstr s], chunkBuffer := buf' }
    with ⟨st2, brk⟩
  rw [hpc] at hbrk
  simp only at hbrk
  subst hbrk
  rfl

/-- The text-delta events of the full SSE stream are exactly those of
the loop state: the surrounding protocol events are never text
deltas. -/
theorem textDeltaEvents_runStream (it : Nat) (frags : List Frag) :
    textDeltaEvents (runStream it frags) =
      textDeltaEvents (runStreamState frags).events := by
  unfold runStream textDeltaEvents
  dsimp only
  simp only [List.filter_append, List.filter_cons, List.filter_nil,
    Bool.false_eq_true, if_false, List.nil_append, List.append_nil]

end GeminiProxy

namespace GeminiProxy

/-- Opening step of a buffer scan beginning at a brace. -/
theorem tryParseLoop_open_step (buf : List Char) (X : List Char) :
    tryParseLoop buf 0 ('\x7b' :: X) 0 none = tryParseLoop buf 1 X 1 (some 0) := by
  simp [tryParseLoop]

/-- **C4** (amended).  Round-trip of the streaming reassembly buffer
for a canonical serialized text-delta chunk
`\x7b"choices":[\x7b"delta":\x7b"content": t\x7d\x7d]\x7d` whose text `t` is
non-empty and free of braces, quotes and backslashes, split into two
non-empty non-malformed string fragments with the whole chunk within
the 10000-character buffer cap: the handler buffers the first fragment
without emitting any `text_delta`, and after the second fragment emits
exactly one `text_delta` carrying the entire text. -/
theorem streaming_reassembly_roundtrip
    (t : String)
    (ht : ∀ c ∈ t.data, c ≠ '\x7b' ∧ c ≠ '\x7d' ∧ c ≠ '"' ∧ c ≠ '\\')
    (ht0 : t ≠ "") (f1 f2 : String)
    (hsplit : f1.data ++ f2.data = (serializeTextChunk t).data)
    (hf1 : f1.data ≠ []) (hf2 : f2.data ≠ [])
    (hm1 : isMalformedChunk f1 = false) (hm2 : isMalformedChunk f2 = false)
    (hcap : (serializeTextChunk t).data.length ≤ 10000) (it : Nat) :
    textDeltaEvents (runStream it [Frag.fstr f1]) = [] ∧
    textDeltaEvents (runStream it [Frag.fstr f1, Frag.fstr f2]) =
      [SEvent.textDelta 0 t] := by
  have htb : ∀ c ∈ t.data, c ≠ '\x7b' ∧ c ≠ '\x7d' :=
    fun c hc => ⟨(ht c hc).1, (ht c hc).2.1⟩
  have htq : ∀ c ∈ t.data, c ≠ '"' ∧ c ≠ '\\' :=
    fun c hc => ⟨(ht c hc).2.2.1, (ht c hc).2.2.2⟩
  have hfull0 : (serializeTextChunk t).data =
      "\x7b\"choices\":[\x7b\"delta\":\x7b\"content\":\"".data ++
        (t.data ++ "\"\x7d\x7d]\x7d".data) := rfl
  have hfull1 : (serializeTextChunk t).data =
      '\x7b' :: ("\"choices\":[\x7b\"delta\":\x7b\"content\":\"".data ++
        (t.data ++ "\"\x7d\x7d]\x7d".data)) := rfl
  obtain ⟨l1, hl1⟩ : ∃ l1, f1.data = '\x7b' :: l1 := by
    rcases hda : f1.data with _ | ⟨a, l1⟩
    · exact absurd hda hf1
    · have h := hsplit
      rw [hda, hfull1, List.cons_append] at h
      injection h with h1 h2
      subst h1
      exact ⟨l1, rfl⟩
  have hstrip1 : pyStrip f1 ≠ "[DONE]" := by
    intro he
    have h1 : (pyStripL f1.data).head? = some '\x7b' := by
      rw [hl1]
      exact pyStripL_head _ _ (by decide)
    have h2 : (pyStrip f1).data = pyStripL f1.data := rfl
    rw [he] at h2
    rw [← h2] at h1
    exact absurd h1 (by decide)
  have hfl : (serializeTextChunk t).data.getLast? = some '\x7d' := by
    rw [hfull0]
    rw [List.getLast?_append_of_ne_nil _ (by
      intro hnil
      exact absurd (List.append_eq_nil.mp hnil).2 (by decide))]
    rw [List.getLast?_append_of_ne_nil _ (by decide)]
    decide
  have hl2 : f2.data.getLast? = some '\x7d' := by
    have h := List.getLast?_append_of_ne_nil f1.data hf2
    rw [hsplit] at h
    rw [← h]
    exact hfl
  have hstrip2 : pyStrip f2 ≠ "[DONE]" := by
    intro he
    have h1 : (pyStripL f2.data).getLast? = some '\x7d' :=
      pyStripL_last f2.data '\x7d' (by decide) hl2
    have h2 : (pyStrip f2).data = pyStripL f2.data := rfl
    rw [he] at h2
    rw [← h2] at h1
    exact absurd h1 (by decide)
  have hlenf : f1.data.length + f2.data.length =
      (serializeTextChunk t).data.length := by
    have h := congrArg List.length hsplit
    simpa [List.length_append] using h
  have hf2pos : 0 < f2.data.length := List.length_pos.mpr hf2
  have hnd : noHit (serializeTextChunk t).data.dropLast 0 = true := by
    have h0 : (serializeTextChunk t).data =
        ("\x7b\"choices\":[\x7b\"delta\":\x7b\"content\":\"".data ++
          (t.data ++ "\"\x7d\x7d]".data)) ++ ['\x7d'] := by
      rw [hfull0]
      rw [show ("\"\x7d\x7d]\x7d".data : List Char) =
        "\"\x7d\x7d]".data ++ ['\x7d'] from rfl]
      simp [List.append_assoc]
    rw [h0, List.dropLast_concat]
    rw [noHit_append, noHit_append]
    rw [netDepth_bracefree t.data htb]
    rw [show netDepth "\x7b\"choices\":[\x7b\"delta\":\x7b\"content\":\"".data = 3
      from by decide]
    rw [show (0 : Int) + 3 = 3 from by decide]
    rw [show (3 : Int) + 0 = 3 from by decide]
    rw [noHit_bracefree t.data htb 3]
    rw [show noHit "\x7b\"choices\":[\x7b\"delta\":\x7b\"content\":\"".data 0 = true
      from by decide]
    rw [show noHit ("\"\x7d\x7d]".data : List Char) 3 = true from by decide]
    rfl
  have hpre1 : f1.data <+: (serializeTextChunk t).data.dropLast := by
    rw [List.dropLast_eq_take, List.prefix_take_iff]
    exact ⟨⟨f2.data, hsplit⟩, by omega⟩
  have hnh1 : noHit f1.data 0 = true :=
    noHit_prefix _ f1.data 0 hnd hpre1
  have hpb1 : tryParseBufferedChunk f1.data = (none, f1.data) := by
    unfold tryParseBufferedChunk
    rw [if_neg (by
      intro he
      have h1 : (pyStripL f1.data).head? = some '\x7b' := by
        rw [hl1]
        exact pyStripL_head _ _ (by decide)
      rw [he] at h1
      exact absurd h1 (by decide))]
    rw [tryParseLoop_none_of_noHit f1.data 0 hnh1 f1.data 0 none]
  have hjson : jsonLoadsL (serializeTextChunk t).data = some (sampleChunkJson t) :=
    jsonLoadsL_template t htq
  have hshape : (serializeTextChunk t).data =
      '\x7b' :: (("\"choices\":[\x7b\"delta\":\x7b\"content\":\"".data ++
        (t.data ++ "\"\x7d\x7d]".data)) ++ ['\x7d']) := by
    rw [hfull1]
    rw [show ("\"\x7d\x7d]\x7d".data : List Char) =
      "\"\x7d\x7d]".data ++ ['\x7d'] from rfl]
    simp [List.append_assoc]
  have hmidlen : ("\"choices\":[\x7b\"delta\":\x7b\"content\":\"".data ++
      (t.data ++ "\"\x7d\x7d]".data)).length + 2 =
        (serializeTextChunk t).data.length := by
    rw [hshape]
    simp [List.length_append]
  have hnhmid : noHit ("\"choices\":[\x7b\"delta\":\x7b\"content\":\"".data ++
      (t.data ++ "\"\x7d\x7d]".data)) 1 = true := by
    rw [noHit_append, noHit_append]
    rw [netDepth_bracefree t.data htb]
    rw [show netDepth "\"choices\":[\x7b\"delta\":\x7b\"content\":\"".data = 2
      from by decide]
    rw [show (1 : Int) + 2 = 3 from by decide]
    rw [show (3 : Int) + 0 = 3 from by decide]
    rw [noHit_bracefree t.data htb 3]
    rw [show noHit "\"choices\":[\x7b\"delta\":\x7b\"content\":\"".data 1 = true
      from by decide]
    rw [show noHit ("\"\x7d\x7d]".data : List Char) 3 = true from by decide]
    rfl
  have hndmid : netDepth ("\"choices\":[\x7b\"delta\":\x7b\"content\":\"".data ++
      (t.data ++ "\"\x7d\x7d]".data)) = 0 := by
    rw [netDepth_append, netDepth_append, netDepth_bracefree t.data htb]
    rw [show netDepth "\"choices\":[\x7b\"delta\":\x7b\"content\":\"".data = 2
      from by decide]
    rw [show netDepth ("\"\x7d\x7d]".data : List Char) = -2 from by decide]
    decide
  have hscan : tryParseLoop (serializeTextChunk t).data 0
      (serializeTextChunk t).data 0 none = some (sampleChunkJson t, []) := by
    conv_lhs => rw [hshape]
    rw [tryParseLoop_open_step]
    rw [tryParseLoop_final_hit _ 1 hnhmid (by rw [hndmid]; decide) _ 1 0]
    rw [List.drop_zero]
    rw [show 1 + ("\"choices\":[\x7b\"delta\":\x7b\"content\":\"".data ++
      (t.data ++ "\"\x7d\x7d]".data)).length + 1 =
        ("\"choices\":[\x7b\"delta\":\x7b\"content\":\"".data ++
          (t.data ++ "\"\x7d\x7d]".data)).length + 2 from by omega]
    rw [Nat.sub_zero]
    rw [List.take_of_length_le (by
      simp [List.length_append])]
    rw [← hshape, hjson, hmidlen]
    rw [List.drop_length]
    rfl
  have hpb2 : tryParseBufferedChunk (serializeTextChunk t).data =
      (some (sampleChunkJson t), []) := by
    unfold tryParseBufferedChunk
    rw [if_neg (by
      intro he
      have h1 : (pyStripL (serializeTextChunk t).data).head? = some '\x7b' := by
        rw [hfull1]
        exact pyStripL_head _ _ (by decide)
      rw [he] at h1
      exact absurd h1 (by decide))]
    rw [hscan]
  have hrun1 : runStreamState [Frag.fstr f1] =
      { initialLoopState with
          allChunks := initialLoopState.allChunks ++ [Frag.fstr f1],
          chunkBuffer := f1.data } := by
    unfold runStreamState
    rw [runStreamLoop_buffer_step f1 [] initialLoopState hm1 hstrip1 f1.data
      hpb1 (by omega)]
    rfl
  have htp2 : tryParseBufferedChunk (f1.data ++ f2.data) =
      (some (sampleChunkJson t), []) := by
    rw [hsplit]
    exact hpb2
  have hrun2 : runStreamState [Frag.fstr f1, Frag.fstr f2] =
      (processChunk (sampleChunkJson t)
        { initialLoopState with
            allChunks := (initialLoopState.allChunks ++ [Frag.fstr f1]) ++
              [Frag.fstr f2],
            chunkBuffer := [] }).1 := by
    unfold runStreamState
    rw [runStreamLoop_buffer_step f1 [Frag.fstr f2] initialLoopState hm1 hstrip1
      f1.data hpb1 (by omega)]
    rw [runStreamLoop_complete_step f2 []
      { initialLoopState with
          allChunks := initialLoopState.allChunks ++ [Frag.fstr f1],
          chunkBuffer := f1.data }
      hm2 hstrip2 (sampleChunkJson t) [] htp2
      (processChunk_events_content (sampleChunkJson t) _ t rfl ht0 rfl).2]
    rfl
  constructor
  · rw [textDeltaEvents_runStream, hrun1]
    rfl
  · rw [textDeltaEvents_runStream, hrun2]
    rw [(processChunk_events_content (sampleChunkJson t) _ t rfl ht0 rfl).1]
    rfl

end GeminiProxy

namespace GeminiProxy

/-- Counterexample to C4 as stated: a valid JSON chunk whose text
delta itself contains a closing brace, split at character 34 into two
non-malformed fragments, is never reassembled.  The buffer scanner of
`try_parse_buffered_chunk` counts braces inside JSON string literals,
so its depth returns to zero at a premature candidate (whose parse
fails) and never at the true end of the object; the stream emits no
`text_delta` at all, although the whole serialized chunk is valid
JSON. -/
theorem streaming_reassembly_counterexample :
    jsonLoads (serializeTextChunk "\x7daaaaaaaaaaaaaaaaaaaaaaa") =
      some (sampleChunkJson "\x7daaaaaaaaaaaaaaaaaaaaaaa") ∧
    (String.mk ((serializeTextChunk "\x7daaaaaaaaaaaaaaaaaaaaaaa").data.take 34)).data ++
      (String.mk ((serializeTextChunk "\x7daaaaaaaaaaaaaaaaaaaaaaa").data.drop 34)).data =
      (serializeTextChunk "\x7daaaaaaaaaaaaaaaaaaaaaaa").data ∧
    isMalformedChunk
      (String.mk ((serializeTextChunk "\x7daaaaaaaaaaaaaaaaaaaaaaa").data.take 34)) =
        false ∧
    isMalformedChunk
      (String.mk ((serializeTextChunk "\x7daaaaaaaaaaaaaaaaaaaaaaa").data.drop 34)) =
        false ∧
    textDeltaEvents (runStream 5
      [Frag.fstr
        (String.mk ((serializeTextChunk "\x7daaaaaaaaaaaaaaaaaaaaaaa").data.take 34)),
       Frag.fstr
        (String.mk ((serializeTextChunk "\x7daaaaaaaaaaaaaaaaaaaaaaa").data.drop 34))]) =
      [] := by
  decide

/-- Witness for `streaming_reassembly_roundtrip`: a concrete benign
chunk split at character 34; the first fragment is non-malformed, and
the stream emits exactly one merged `text_delta`. -/
theorem streaming_reassembly_roundtrip_witness :
    isMalformedChunk
      (String.mk ((serializeTextChunk "hello streaming world aaaa").data.take 34)) =
        false ∧
    textDeltaEvents (runStream 5
      [Frag.fstr
        (String.mk ((serializeTextChunk "hello streaming world aaaa").data.take 34)),
       Frag.fstr
        (String.mk ((serializeTextChunk "hello streaming world aaaa").data.drop 34))]) =
      [SEvent.textDelta 0 "hello streaming world aaaa"] :=
  ⟨by decide,
   (streaming_reassembly_roundtrip "hello streaming world aaaa" (by decide) (by decide)
     (String.mk ((serializeTextChunk "hello streaming world aaaa").data.take 34))
     (String.mk ((serializeTextChunk "hello streaming world aaaa").data.drop 34))
     (by decide) (by decide) (by decide) (by decide) (by decide) (by decide) 5).2⟩

end GeminiProxy
